import Mathlib

/-!
Verification of the SQLite connection-descriptor parsing and serialization
core of this repository, found in sqlx-sqlite/src/options/parse.rs.

Modelling conventions.  Descriptors, paths and query strings are byte
strings: `List Nat`, every element a byte value below 256.  ASCII string
literals of the source are injected with `s2b`.  External library routines
called by the source are embedded after their documented behaviour:
`percent_encoding::percent_decode_str` (`percentDecode`), strict and lossy
UTF-8 decoding (`utf8Valid`, `utf8Lossy`), `url::form_urlencoded::parse`
(`formPairs`), the form-urlencoded serializer behind
`Url::query_pairs_mut().append_pair` (`formEncode`),
`percent_encoding::percent_encode` with the WHATWG path set
(`pctEncodePath`), `str::trim_start_matches` (`trimAll`), `str::replace`
(`replaceAll`), and the decimal rendering of `format!` (`decRepr`).  The
process-wide atomic counter `IN_MEMORY_DB_SEQ` is modelled by explicit
state passing: `fromDbAndParams` takes the current counter value and
returns the value the counter holds afterwards.
-/

deriving instance DecidableEq for Except

namespace SqlxSqlite

/-- Byte string of an ASCII string literal: the list of character codes. -/
def s2b (s : String) : List Nat := s.data.map Char.toNat

/-- Remove a leading pattern: `some rest` when `p` is a prefix of `l`. -/
def dropPref : List Nat → List Nat → Option (List Nat)
  | [], l => some l
  | _ :: _, [] => none
  | p :: ps, b :: bs => if p = b then dropPref ps bs else none

/-- Boolean prefix test, via `dropPref`. -/
def isPref (p l : List Nat) : Bool := (dropPref p l).isSome

/-- Fuelled core of `str::trim_start_matches`: repeatedly remove the
pattern from the front while it is a prefix. -/
def trimAllFuel : Nat → List Nat → List Nat → List Nat
  | 0, _, l => l
  | fuel + 1, p, l =>
    match dropPref p l with
    | some r => if p.isEmpty then l else trimAllFuel fuel p r
    | none => l

/-- Model of `str::trim_start_matches`: every consecutive occurrence of the
(nonempty) pattern is removed from the front, not only the first one.  The
fuel `l.length + 1` is an upper bound on the number of removals. -/
def trimAll (p l : List Nat) : List Nat := trimAllFuel (l.length + 1) p l

/-- Fuelled core of `str::replace(pat, "")`: remove every non-overlapping
occurrence of the pattern, scanning left to right. -/
def replaceAllFuel : Nat → List Nat → List Nat → List Nat
  | 0, _, l => l
  | fuel + 1, p, l =>
    match dropPref p l with
    | some r => if p.isEmpty then l else replaceAllFuel fuel p r
    | none =>
      match l with
      | [] => []
      | b :: bs => b :: replaceAllFuel fuel p bs

/-- Model of `key.replace("pragma_", "")`: removes every occurrence of the
pattern, not only a leading one. -/
def replaceAll (p l : List Nat) : List Nat := replaceAllFuel l.length p l

/-- Split a byte string at every occurrence of a separator byte, keeping
empty pieces, as `slice::split` does. -/
def splitByte (sep : Nat) : List Nat → List (List Nat)
  | [] => [[]]
  | b :: r =>
    let rest := splitByte sep r
    if b = sep then [] :: rest
    else
      match rest with
      | s :: tl => (b :: s) :: tl
      | [] => [[b]]

/-- Split at the first occurrence of a separator byte, as `splitn(2, sep)`:
the part before it, and the part after it when the separator occurs. -/
def splitFirst (sep : Nat) : List Nat → List Nat × Option (List Nat)
  | [] => ([], none)
  | b :: r =>
    if b = sep then ([], some r)
    else
      let kv := splitFirst sep r
      (b :: kv.1, kv.2)

/-- Concatenation of the images of every byte, used by the encoders. -/
def concatMap (f : Nat → List Nat) : List Nat → List Nat
  | [] => []
  | b :: r => f b ++ concatMap f r

/-- Join byte strings with the ampersand byte between consecutive pieces. -/
def joinAmp : List (List Nat) → List Nat
  | [] => []
  | [x] => x
  | x :: xs => x ++ 38 :: joinAmp xs

/-- Value of an ASCII hex digit, both cases accepted, as in the
percent-encoding crate. -/
def hexVal (b : Nat) : Option Nat :=
  if 48 ≤ b ∧ b ≤ 57 then some (b - 48)
  else if 65 ≤ b ∧ b ≤ 70 then some (b - 55)
  else if 97 ≤ b ∧ b ≤ 102 then some (b - 87)
  else none

/-- Attempt to read two hex digits after a percent byte: the denoted byte
and the remaining input, or `none` when the escape is not well formed. -/
def pctTake : List Nat → Option (Nat × List Nat)
  | a :: c :: r2 =>
    match hexVal a, hexVal c with
    | some x, some y => some (16 * x + y, r2)
    | _, _ => none
  | _ => none

/-- Fuelled core of `percent_decode`: a percent byte followed by two hex
digits becomes the denoted byte; otherwise the percent byte is kept
literally and decoding continues with the next byte.  Every step consumes
at least one byte, so fuel equal to the length is enough. -/
def percentDecodeFuel : Nat → List Nat → List Nat
  | 0, l => l
  | _ + 1, [] => []
  | fuel + 1, b :: rest =>
    if b = 37 then
      match pctTake rest with
      | some xr => xr.1 :: percentDecodeFuel fuel xr.2
      | none => b :: percentDecodeFuel fuel rest
    else b :: percentDecodeFuel fuel rest

/-- Model of `percent_decode`. -/
def percentDecode (l : List Nat) : List Nat := percentDecodeFuel l.length l

/-- Form decoding replaces every plus byte by a space before percent
decoding, as `url::form_urlencoded` does. -/
def replacePlus (l : List Nat) : List Nat := l.map fun b => if b = 43 then 32 else b

/-- Well-formed UTF-8 sequences after a lead byte: for a given lead byte,
the list of admissible ranges of the following continuation bytes, or
`none` when the byte cannot start a sequence.  The table is the RFC 3629
well-formedness table: it excludes overlong forms, surrogates and values
past U+10FFFF, exactly as both `str::from_utf8` and lossy decoding do. -/
def utf8Expect (b : Nat) : Option (List (Nat × Nat)) :=
  if b < 128 then some []
  else if 194 ≤ b ∧ b ≤ 223 then some [(128, 191)]
  else if b = 224 then some [(160, 191), (128, 191)]
  else if 225 ≤ b ∧ b ≤ 236 then some [(128, 191), (128, 191)]
  else if b = 237 then some [(128, 159), (128, 191)]
  else if 238 ≤ b ∧ b ≤ 239 then some [(128, 191), (128, 191)]
  else if b = 240 then some [(144, 191), (128, 191), (128, 191)]
  else if 241 ≤ b ∧ b ≤ 243 then some [(128, 191), (128, 191), (128, 191)]
  else if b = 244 then some [(128, 143), (128, 191), (128, 191)]
  else none

/-- Strict UTF-8 validity scan: the second argument is the list of ranges
the next bytes still have to satisfy for the current sequence. -/
def utf8ValidGo : List Nat → List (Nat × Nat) → Bool
  | [], exp => exp.isEmpty
  | b :: r, [] =>
    match utf8Expect b with
    | some exp => utf8ValidGo r exp
    | none => false
  | b :: r, (lo, hi) :: exp => if lo ≤ b ∧ b ≤ hi then utf8ValidGo r exp else false

/-- Strict UTF-8 validity of a byte string, as `str::from_utf8` checks it;
this is what `decode_utf8` on the percent-decoded path requires. -/
def utf8Valid (l : List Nat) : Bool := utf8ValidGo l []

/-- The UTF-8 bytes of the replacement character U+FFFD. -/
def fffd : List Nat := [239, 191, 189]

/-- Lossy UTF-8 decoding scan, as `decode_utf8_lossy` used by the query
decoder: valid sequences are copied, every maximal subpart of an
ill-formed sequence becomes one replacement character.  `pend` holds the
bytes of the sequence in progress, `exp` the ranges its remaining bytes
must satisfy; a byte breaking a sequence in progress yields one
replacement character and is then examined again as a lead byte. -/
def utf8LossyGo : List Nat → List Nat → List (Nat × Nat) → List Nat
  | [], pend, _ => if pend.isEmpty then [] else fffd
  | b :: r, pend, [] =>
    match utf8Expect b with
    | some [] => pend ++ b :: utf8LossyGo r [] []
    | some exp => utf8LossyGo r (pend ++ [b]) exp
    | none => pend ++ fffd ++ utf8LossyGo r [] []
  | b :: r, pend, (lo, hi) :: exp =>
    if lo ≤ b ∧ b ≤ hi then
      match exp with
      | [] => (pend ++ [b]) ++ utf8LossyGo r [] []
      | _ => utf8LossyGo r (pend ++ [b]) exp
    else
      fffd ++
        (match utf8Expect b with
        | some [] => b :: utf8LossyGo r [] []
        | some exp2 => utf8LossyGo r [b] exp2
        | none => fffd ++ utf8LossyGo r [] [])

/-- Lossy UTF-8 decoding of a byte string. -/
def utf8Lossy (l : List Nat) : List Nat := utf8LossyGo l [] []

/-- Decoding of one form-urlencoded component: plus bytes become spaces,
percent escapes are decoded, and the bytes are decoded lossily as UTF-8. -/
def decodeComp (l : List Nat) : List Nat := utf8Lossy (percentDecode (replacePlus l))

/-- Key and value of one nonempty form-urlencoded piece: split at the first
equals sign, the value defaulting to empty, both components decoded. -/
def pairOfSeg (seg : List Nat) : List Nat × List Nat :=
  let kv := splitFirst 61 seg
  (decodeComp kv.1, decodeComp (kv.2.getD []))

/-- Model of `url::form_urlencoded::parse`: split at every ampersand, drop
empty pieces, decode each remaining piece into a key and value pair.  Order
and duplicates are preserved, and decoding never fails. -/
def formPairs (l : List Nat) : List (List Nat × List Nat) :=
  ((splitByte 38 l).filter fun s => !s.isEmpty).map pairOfSeg

/-- Query pairs of an optional query string; an absent query contributes
no pairs. -/
def paramPairs : Option (List Nat) → List (List Nat × List Nat)
  | none => []
  | some ps => formPairs ps

/-- Fuelled decimal rendering, most significant digit first, matching the
rendering of an unsigned integer by the formatting machinery. -/
def decReprFuel : Nat → Nat → List Nat → List Nat
  | 0, _, acc => acc
  | fuel + 1, n, acc =>
    if n < 10 then (48 + n) :: acc
    else decReprFuel fuel (n / 10) ((48 + n % 10) :: acc)

/-- ASCII bytes of the decimal rendering of a natural number. -/
def decRepr (n : Nat) : List Nat := decReprFuel (n + 1) n []

/-- Identifier minted for an anonymous in-memory database at a given value
of the process counter. -/
def synthName (seq : Nat) : List Nat := s2b "file:sqlx-in-memory-" ++ decRepr seq

/-- Configuration value built by the parser, with the fields the shown
source reads and writes.  `filename` carries the path bytes of the
`PathBuf`; `pragmas` is the ordered pragma override list. -/
structure SqliteConnectOptions where
  filename : List Nat
  in_memory : Bool
  shared_cache : Bool
  create_if_missing : Bool
  read_only : Bool
  immutable : Bool
  vfs : Option (List Nat)
  pragmas : List (List Nat × List Nat)
deriving DecidableEq, Repr

/-- Modelled from the spec: `SqliteConnectOptions::default()` lives in
options/mod.rs, which is not among the sources here.  Section 3 of the
specification fixes the default configuration value: not in-memory,
`shared_cache = true`, all other booleans false, no VFS, empty pragma
list.  The repository round-trip test `it_returns_the_parsed_url` is
consistent with every one of these defaults except `shared_cache`, which
it does not observe. -/
def defaultOptions : SqliteConnectOptions :=
  { filename := []
    in_memory := false
    shared_cache := true
    create_if_missing := false
    read_only := false
    immutable := false
    vfs := none
    pragmas := [] }

/-- Modelled from the spec: the derivation operation `pragma` of
`SqliteConnectOptions` is defined outside the shown sources; section 3 of
the specification states that pragma overrides form an ordered sequence,
insertion order preserved and duplicates allowed, so the operation appends
one pair. -/
def SqliteConnectOptions.pragma (o : SqliteConnectOptions) (k v : List Nat) :
    SqliteConnectOptions :=
  { o with pragmas := o.pragmas ++ [(k, v)] }

/-- Configuration errors of the parser.  Each constructor carries the
offending datum that the source interpolates into its message text:
the unknown mode, cache or immutable value, the unknown query key, or the
path bytes whose percent-decoding is not UTF-8. -/
inductive ConfigError where
  | invalidUtf8Path (raw : List Nat)
  | unknownModeValue (v : List Nat)
  | unknownCacheValue (v : List Nat)
  | unknownImmutableValue (v : List Nat)
  | unknownParam (k : List Nat)
deriving DecidableEq, Repr

/-- The pragma allow-list of the query-parameter match, verbatim from the
source. -/
def pragmaKeys : List (List Nat) :=
  [s2b "pragma_analysis_limit",
   s2b "pragma_application_id",
   s2b "pragma_auto_vacuum",
   s2b "pragma_automatic_index",
   s2b "pragma_busy_timeout",
   s2b "pragma_cache_size",
   s2b "pragma_cache_spill",
   s2b "pragma_case_sensitive_like",
   s2b "pragma_cell_size_check",
   s2b "pragma_checkpoint_fullfsync",
   s2b "pragma_collation_list",
   s2b "pragma_compile_options",
   s2b "pragma_count_changes",
   s2b "pragma_data_store_directory",
   s2b "pragma_data_version",
   s2b "pragma_database_list",
   s2b "pragma_default_cache_size",
   s2b "pragma_defer_foreign_keys",
   s2b "pragma_empty_result_callbacks",
   s2b "pragma_encoding",
   s2b "pragma_foreign_key_check",
   s2b "pragma_foreign_key_list",
   s2b "pragma_foreign_keys",
   s2b "pragma_freelist_count",
   s2b "pragma_full_column_names",
   s2b "pragma_fullfsync",
   s2b "pragma_function_list",
   s2b "pragma_hard_heap_limit",
   s2b "pragma_ignore_check_constraints",
   s2b "pragma_incremental_vacuum",
   s2b "pragma_index_info",
   s2b "pragma_index_list",
   s2b "pragma_index_xinfo",
   s2b "pragma_integrity_check",
   s2b "pragma_journal_mode",
   s2b "pragma_journal_size_limit",
   s2b "pragma_legacy_alter_table",
   s2b "pragma_legacy_file_format",
   s2b "pragma_locking_mode",
   s2b "pragma_max_page_count",
   s2b "pragma_mmap_size",
   s2b "pragma_module_list",
   s2b "pragma_optimize",
   s2b "pragma_page_count",
   s2b "pragma_page_size",
   s2b "pragma_parser_trace",
   s2b "pragma_pragma_list",
   s2b "pragma_query_only",
   s2b "pragma_quick_check",
   s2b "pragma_read_uncommitted",
   s2b "pragma_recursive_triggers",
   s2b "pragma_reverse_unordered_selects",
   s2b "pragma_schema_version",
   s2b "pragma_secure_delete",
   s2b "pragma_short_column_names",
   s2b "pragma_shrink_memory",
   s2b "pragma_soft_heap_limit",
   s2b "pragma_stats",
   s2b "pragma_synchronous",
   s2b "pragma_table_info",
   s2b "pragma_table_list",
   s2b "pragma_table_xinfo",
   s2b "pragma_temp_store",
   s2b "pragma_temp_store_directory",
   s2b "pragma_threads",
   s2b "pragma_trusted_schema",
   s2b "pragma_user_version",
   s2b "pragma_vdbe_addoptrace",
   s2b "pragma_vdbe_debug",
   s2b "pragma_vdbe_listing",
   s2b "pragma_vdbe_trace",
   s2b "pragma_wal_autocheckpoint",
   s2b "pragma_wal_checkpoint",
   s2b "pragma_writable_schema"]

/-- One step of the query-parameter interpreter: the match of the loop
body in `from_db_and_params`, applied to one decoded key and value pair. -/
def applyParam (o : SqliteConnectOptions) (key value : List Nat) :
    Except ConfigError SqliteConnectOptions :=
  if key = s2b "mode" then
    if value = s2b "ro" then .ok { o with read_only := true }
    else if value = s2b "rw" then .ok o
    else if value = s2b "rwc" then .ok { o with create_if_missing := true }
    else if value = s2b "memory" then .ok { o with in_memory := true, shared_cache := true }
    else .error (.unknownModeValue value)
  else if key = s2b "cache" then
    if value = s2b "private" then .ok { o with shared_cache := false }
    else if value = s2b "shared" then .ok { o with shared_cache := true }
    else .error (.unknownCacheValue value)
  else if key = s2b "immutable" then
    if value = s2b "true" ∨ value = s2b "1" then .ok { o with immutable := true }
    else if value = s2b "false" ∨ value = s2b "0" then .ok { o with immutable := false }
    else .error (.unknownImmutableValue value)
  else if key = s2b "vfs" then .ok { o with vfs := some value }
  else if key ∈ pragmaKeys then
    .ok (o.pragma (replaceAll (s2b "pragma_") key) value)
  else .error (.unknownParam key)

/-- The parameter loop of `from_db_and_params`: apply each pair in order,
aborting at the first error, as the early return of the source does. -/
def applyParams (o : SqliteConnectOptions) :
    List (List Nat × List Nat) → Except ConfigError SqliteConnectOptions
  | [] => .ok o
  | kv :: rest =>
    match applyParam o kv.1 kv.2 with
    | .ok o2 => applyParams o2 rest
    | .error e => .error e

/-- Model of `SqliteConnectOptions::from_db_and_params`.  The first
argument is the current value of the process counter `IN_MEMORY_DB_SEQ`;
the returned number is the value the counter holds after the call. -/
def fromDbAndParams (seq : Nat) (database : List Nat) (params : Option (List Nat)) :
    Except ConfigError (SqliteConnectOptions × Nat) :=
  if database = s2b ":memory:" then
    match applyParams
        { defaultOptions with
          in_memory := true, shared_cache := true, filename := synthName seq }
        (paramPairs params) with
    | .ok o => .ok (o, seq + 1)
    | .error e => .error e
  else
    if utf8Valid (percentDecode database) then
      match applyParams { defaultOptions with filename := percentDecode database }
          (paramPairs params) with
      | .ok o => .ok (o, seq)
      | .error e => .error e
    else .error (.invalidUtf8Path database)

/-- Model of `SqliteConnectOptions::from_str`: strip every leading
occurrence of the two scheme spellings, split at the first question mark,
and hand both parts to `from_db_and_params`. -/
def fromStr (seq : Nat) (url : List Nat) : Except ConfigError (SqliteConnectOptions × Nat) :=
  fromDbAndParams seq
    (splitFirst 63 (trimAll (s2b "sqlite:") (trimAll (s2b "sqlite://") url))).1
    (splitFirst 63 (trimAll (s2b "sqlite:") (trimAll (s2b "sqlite://") url))).2

/-- Uppercase hex digit byte of a value below sixteen. -/
def hexDigitB (d : Nat) : Nat := if d < 10 then 48 + d else 55 + d

/-- Percent escape of one byte, uppercase hex as both encoders emit. -/
def pctHex (b : Nat) : List Nat := [37, hexDigitB (b / 16), hexDigitB (b % 16)]

/-- Encoding of one path byte under the PATH_ENCODE_SET of `build_url`:
C0 controls, DEL, every byte past ASCII, space, quote, hash, angle
brackets, question mark, backtick and both curly brackets are escaped. -/
def pathEncByte (b : Nat) : List Nat :=
  if b ≤ 31 ∨ b = 127 ∨ 128 ≤ b ∨ b = 32 ∨ b = 34 ∨ b = 35 ∨ b = 60 ∨ b = 62 ∨
      b = 63 ∨ b = 96 ∨ b = 123 ∨ b = 125 then pctHex b
  else [b]

/-- Percent-encoding of the filename in `build_url`. -/
def pctEncodePath (l : List Nat) : List Nat := concatMap pathEncByte l

/-- Encoding of one byte by the form-urlencoded serializer behind
`append_pair`: alphanumerics and asterisk, hyphen, dot and underscore pass
through, space becomes plus, everything else is percent-escaped. -/
def formEncByte (b : Nat) : List Nat :=
  if (48 ≤ b ∧ b ≤ 57) ∨ (65 ≤ b ∧ b ≤ 90) ∨ (97 ≤ b ∧ b ≤ 122) ∨
      b = 42 ∨ b = 45 ∨ b = 46 ∨ b = 95 then [b]
  else if b = 32 then [43]
  else pctHex b

/-- Form-urlencoded serialization of one component. -/
def formEncode (l : List Nat) : List Nat := concatMap formEncByte l

/-- The query pairs `build_url` appends, in order: exactly one mode pair,
then exactly one cache pair, an immutable pair only when the flag is set,
and a vfs pair only when a VFS is present. -/
def buildQueryPairs (o : SqliteConnectOptions) : List (List Nat × List Nat) :=
  [(s2b "mode",
    if o.in_memory then s2b "memory"
    else if o.create_if_missing then s2b "rwc"
    else if o.read_only then s2b "ro"
    else s2b "rw"),
   (s2b "cache", if o.shared_cache then s2b "shared" else s2b "private")]
  ++ (if o.immutable then [(s2b "immutable", s2b "true")] else [])
  ++ (match o.vfs with
      | some v => [(s2b "vfs", v)]
      | none => [])

/-- Model of `build_url` as the serialized URL text.  The source builds
`Url::parse(format!("sqlite://{encoded}"))` and appends the query pairs;
for the filenames considered by the theorems below (no URL delimiter
bytes, no dot segments) the URL parser neither rejects nor normalizes this
text, so the serialization is the concatenation written here. -/
def buildUrl (o : SqliteConnectOptions) : List Nat :=
  s2b "sqlite://" ++ pctEncodePath o.filename ++
    63 :: joinAmp ((buildQueryPairs o).map fun kv => formEncode kv.1 ++ 61 :: formEncode kv.2)

/-- Numeric value read back from decimal digit bytes, most significant
first. -/
def decVal (l : List Nat) : Nat := l.foldl (fun a d => a * 10 + (d - 48)) 0

/-- Accepted values of the mode parameter, in source order. -/
def modeVals : List (List Nat) := [s2b "ro", s2b "rw", s2b "rwc", s2b "memory"]

/-- Accepted values of the cache parameter. -/
def cacheVals : List (List Nat) := [s2b "private", s2b "shared"]

/-- Accepted values of the immutable parameter. -/
def immutableVals : List (List Nat) := [s2b "true", s2b "1", s2b "false", s2b "0"]

/-- The four non-pragma keys the interpreter recognizes. -/
def namedKeys : List (List Nat) := [s2b "mode", s2b "cache", s2b "immutable", s2b "vfs"]

/-- The decoded pairs on which the interpreter fails: a recognized key with
an unrecognized value, or a key that is neither recognized nor in the
pragma allow-list. -/
def isBadPair (kv : List Nat × List Nat) : Prop :=
  (kv.1 = s2b "mode" ∧ kv.2 ∉ modeVals) ∨
  (kv.1 = s2b "cache" ∧ kv.2 ∉ cacheVals) ∨
  (kv.1 = s2b "immutable" ∧ kv.2 ∉ immutableVals) ∨
  (kv.1 ∉ namedKeys ∧ kv.1 ∉ pragmaKeys)

/-- The error the interpreter reports for a failing pair: it names the
offending value for a recognized key, and the offending key otherwise,
mirroring the message texts of the source. -/
def pairError (kv : List Nat × List Nat) : ConfigError :=
  if kv.1 = s2b "mode" then .unknownModeValue kv.2
  else if kv.1 = s2b "cache" then .unknownCacheValue kv.2
  else if kv.1 = s2b "immutable" then .unknownImmutableValue kv.2
  else .unknownParam kv.1

/-- The field effect of one accepted mode value, as the mode arm of the
source match performs it. -/
def modeEffect (v : List Nat) (o : SqliteConnectOptions) : SqliteConnectOptions :=
  if v = s2b "ro" then { o with read_only := true }
  else if v = s2b "rw" then o
  else if v = s2b "rwc" then { o with create_if_missing := true }
  else { o with in_memory := true, shared_cache := true }

/-- Concatenation of a given number of copies of a byte string. -/
def repCat (p : List Nat) : Nat → List Nat
  | 0 => []
  | k + 1 => p ++ repCat p k

/-- Bytes of an ordinary identifier such as a VFS name: letters, digits,
dot, hyphen, underscore.  These pass through the form-urlencoded
serializer unchanged (a slash would be escaped there, to be restored on
decoding, which the identity lemmas below do not cover). -/
def goodByte (b : Nat) : Bool :=
  decide ((48 ≤ b ∧ b ≤ 57) ∨ (65 ≤ b ∧ b ≤ 90) ∨ (97 ≤ b ∧ b ≤ 122) ∨
    b = 46 ∨ b = 45 ∨ b = 95)

/-- Bytes of an ordinary on-disk path: identifier bytes plus the slash, so
relative and absolute paths such as dir/a.db or /tmp/a.db are covered.
None of these needs percent-encoding under the PATH_ENCODE_SET of
`build_url`, and none is a URL delimiter, so the URL parser inside
`build_url` keeps the generated text unchanged (dot segments, excluded
separately in the round-trip theorem, are the one thing it rewrites). -/
def pathByte (b : Nat) : Bool := goodByte b || decide (b = 47)

/-! ### Basic facts about the byte-string utilities -/

theorem dropPref_some {p : List Nat} :
    ∀ {l r : List Nat}, dropPref p l = some r → l = p ++ r := by
  induction p with
  | nil => intro l r h; simp [dropPref] at h; simp [h]
  | cons a ps ih =>
    intro l r h
    cases l with
    | nil => simp [dropPref] at h
    | cons b bs =>
      rw [dropPref] at h
      by_cases hab : a = b
      · rw [if_pos hab] at h
        subst hab
        simp [ih h]
      · rw [if_neg hab] at h
        exact absurd h (by simp)

theorem dropPref_append (p s : List Nat) : dropPref p (p ++ s) = some s := by
  induction p with
  | nil => simp [dropPref]
  | cons a ps ih => simp [dropPref, ih]

theorem isPref_iff {p l : List Nat} : isPref p l = true ↔ ∃ r, l = p ++ r := by
  constructor
  · intro h
    rw [isPref, Option.isSome_iff_exists] at h
    obtain ⟨r, hr⟩ := h
    exact ⟨r, dropPref_some hr⟩
  · rintro ⟨r, rfl⟩
    rw [isPref, dropPref_append]
    rfl

theorem isPref_false_of_not {p l : List Nat} (h : ¬ ∃ r, l = p ++ r) : isPref p l = false := by
  cases hp : isPref p l with
  | false => rfl
  | true => exact absurd (isPref_iff.mp hp) h

theorem dropPref_eq_none {p l : List Nat} (h : isPref p l = false) : dropPref p l = none := by
  rw [isPref] at h
  exact Option.not_isSome_iff_eq_none.mp (by simp [h])

theorem dropPref_length {p l r : List Nat} (h : dropPref p l = some r) :
    l.length = p.length + r.length := by
  rw [dropPref_some h, List.length_append]

theorem trimAllFuel_irrel (p : List Nat) :
    ∀ f g l, l.length < f → l.length < g → trimAllFuel f p l = trimAllFuel g p l := by
  intro f
  induction f with
  | zero => intro g l hf; omega
  | succ f ih =>
    intro g l hf hg
    cases g with
    | zero => omega
    | succ g =>
      rw [trimAllFuel, trimAllFuel]
      cases hd : dropPref p l with
      | none => rfl
      | some r =>
        by_cases hp : p.isEmpty
        · simp [hp]
        · simp only [hp, if_false]
          have hlen := dropPref_length hd
          have hplen : 0 < p.length := by
            cases p with
            | nil => simp [List.isEmpty] at hp
            | cons a ps => simp
          exact ih g r (by omega) (by omega)

theorem trimAll_not_pref {p l : List Nat} (h : isPref p l = false) : trimAll p l = l := by
  rw [trimAll, trimAllFuel, dropPref_eq_none h]

theorem trimAll_strip {p : List Nat} (hp : p ≠ []) (s : List Nat) :
    trimAll p (p ++ s) = trimAll p s := by
  rw [trimAll, trimAllFuel, dropPref_append]
  have hp2 : p.isEmpty = false := by
    cases p with
    | nil => exact absurd rfl hp
    | cons a ps => rfl
  simp only [hp2, if_false]
  have hplen : 0 < p.length := by
    cases p with
    | nil => exact absurd rfl hp
    | cons a ps => simp
  exact trimAllFuel_irrel p _ _ s (by simp [List.length_append]; omega) (by omega)

theorem not_mem_cons_parts {sep b : Nat} {bs : List Nat} (h : sep ∉ b :: bs) :
    b ≠ sep ∧ sep ∉ bs := by
  constructor
  · intro hc
    exact h (hc ▸ List.mem_cons_self b bs)
  · intro hc
    exact h (List.mem_cons_of_mem b hc)

theorem splitFirst_not_mem {sep : Nat} : ∀ {l : List Nat}, sep ∉ l → splitFirst sep l = (l, none) := by
  intro l
  induction l with
  | nil => intro h; rfl
  | cons b bs ih =>
    intro h
    obtain ⟨h1, h2⟩ := not_mem_cons_parts h
    rw [splitFirst, if_neg h1, ih h2]

theorem splitFirst_append {sep : Nat} :
    ∀ {f : List Nat} (q : List Nat), sep ∉ f → splitFirst sep (f ++ sep :: q) = (f, some q) := by
  intro f
  induction f with
  | nil => intro q h; simp [splitFirst]
  | cons b bs ih =>
    intro q h
    obtain ⟨h1, h2⟩ := not_mem_cons_parts h
    rw [List.cons_append, splitFirst, if_neg h1, ih q h2]

theorem splitByte_not_mem {sep : Nat} : ∀ {l : List Nat}, sep ∉ l → splitByte sep l = [l] := by
  intro l
  induction l with
  | nil => intro h; rfl
  | cons b bs ih =>
    intro h
    obtain ⟨h1, h2⟩ := not_mem_cons_parts h
    rw [splitByte]
    simp only [ih h2, if_neg h1]

theorem splitByte_append {sep : Nat} :
    ∀ {s : List Nat} (r : List Nat), sep ∉ s →
      splitByte sep (s ++ sep :: r) = s :: splitByte sep r := by
  intro s
  induction s with
  | nil => intro r h; simp [splitByte]
  | cons b bs ih =>
    intro r h
    obtain ⟨h1, h2⟩ := not_mem_cons_parts h
    rw [List.cons_append, splitByte]
    simp only [ih r h2, if_neg h1]

theorem percentDecodeFuel_no_pct : ∀ (f : Nat) {l : List Nat}, 37 ∉ l → percentDecodeFuel f l = l := by
  intro f
  induction f with
  | zero => intro l h; rfl
  | succ f ih =>
    intro l h
    cases l with
    | nil => rfl
    | cons b bs =>
      obtain ⟨h1, h2⟩ := not_mem_cons_parts h
      rw [percentDecodeFuel]
      simp only [if_neg h1]
      rw [ih h2]

theorem percentDecode_no_pct {l : List Nat} (h : 37 ∉ l) : percentDecode l = l :=
  percentDecodeFuel_no_pct _ h

theorem replacePlus_no_plus : ∀ {l : List Nat}, 43 ∉ l → replacePlus l = l := by
  intro l
  induction l with
  | nil => intro h; rfl
  | cons b bs ih =>
    intro h
    obtain ⟨h1, h2⟩ := not_mem_cons_parts h
    rw [replacePlus, List.map_cons]
    rw [if_neg h1]
    have h3 := ih h2
    rw [replacePlus] at h3
    rw [h3]

theorem utf8Expect_ascii {b : Nat} (h : b < 128) : utf8Expect b = some [] := by
  rw [utf8Expect, if_pos h]

theorem utf8Valid_ascii : ∀ {l : List Nat}, (∀ b ∈ l, b < 128) → utf8Valid l = true := by
  intro l
  induction l with
  | nil => intro h; rfl
  | cons b bs ih =>
    intro h
    show utf8ValidGo (b :: bs) [] = true
    rw [utf8ValidGo, utf8Expect_ascii (h b (List.mem_cons_self b bs))]
    exact ih fun x hx => h x (List.mem_cons_of_mem b hx)

theorem utf8Lossy_ascii : ∀ {l : List Nat}, (∀ b ∈ l, b < 128) → utf8Lossy l = l := by
  intro l
  induction l with
  | nil => intro h; rfl
  | cons b bs ih =>
    intro h
    show utf8LossyGo (b :: bs) [] [] = b :: bs
    rw [utf8LossyGo, utf8Expect_ascii (h b (List.mem_cons_self b bs))]
    have h3 := ih fun x hx => h x (List.mem_cons_of_mem b hx)
    rw [utf8Lossy] at h3
    simp [h3]

/-- Plain bytes pass through form-urlencoded component decoding unchanged:
ASCII, no plus byte, no percent byte. -/
theorem decodeComp_plain {l : List Nat} (h : ∀ b ∈ l, b < 128 ∧ b ≠ 43 ∧ b ≠ 37) :
    decodeComp l = l := by
  rw [decodeComp, replacePlus_no_plus (fun hc => ((h 43 hc).2.1 rfl)),
    percentDecode_no_pct (fun hc => ((h 37 hc).2.2 rfl)),
    utf8Lossy_ascii (fun b hb => (h b hb).1)]

/-! ### The decimal rendering and the uniqueness of minted identifiers -/

theorem decReprFuel_irrel : ∀ f g n acc, n < f → n < g → decReprFuel f n acc = decReprFuel g n acc := by
  intro f
  induction f with
  | zero => intro g n acc hf; omega
  | succ f ih =>
    intro g n acc hf hg
    cases g with
    | zero => omega
    | succ g =>
      rw [decReprFuel, decReprFuel]
      by_cases h10 : n < 10
      · rw [if_pos h10, if_pos h10]
      · rw [if_neg h10, if_neg h10]
        exact ih g (n / 10) _ (by omega) (by omega)

theorem decReprFuel_acc : ∀ f n acc, decReprFuel f n acc = decReprFuel f n [] ++ acc := by
  intro f
  induction f with
  | zero => intro n acc; rfl
  | succ f ih =>
    intro n acc
    rw [decReprFuel, decReprFuel]
    by_cases h10 : n < 10
    · rw [if_pos h10, if_pos h10]; rfl
    · rw [if_neg h10, if_neg h10, ih (n / 10) ((48 + n % 10) :: acc),
        ih (n / 10) [48 + n % 10], List.append_assoc]
      rfl

theorem decVal_append_digit (l : List Nat) (d : Nat) :
    decVal (l ++ [d]) = decVal l * 10 + (d - 48) := by
  rw [decVal, decVal, List.foldl_append]
  rfl

theorem decVal_decRepr : ∀ n, decVal (decRepr n) = n := by
  intro n
  induction n using Nat.strong_induction_on with
  | _ n ih =>
    rw [decRepr, decReprFuel]
    by_cases h10 : n < 10
    · rw [if_pos h10, decVal]
      simp only [List.foldl_cons, List.foldl_nil]
      omega
    · rw [if_neg h10]
      have h1 : decReprFuel n (n / 10) [48 + n % 10] =
          decReprFuel (n / 10 + 1) (n / 10) [48 + n % 10] :=
        decReprFuel_irrel n (n / 10 + 1) (n / 10) _ (by omega) (by omega)
      rw [h1, decReprFuel_acc]
      have h2 := decVal_append_digit (decReprFuel (n / 10 + 1) (n / 10) []) (48 + n % 10)
      rw [h2]
      have h3 := ih (n / 10) (by omega)
      rw [decRepr] at h3
      rw [h3]
      omega

theorem decRepr_inj {m n : Nat} (h : decRepr m = decRepr n) : m = n := by
  have hm := decVal_decRepr m
  rw [h, decVal_decRepr] at hm
  omega

theorem synthName_inj {m n : Nat} (h : synthName m = synthName n) : m = n := by
  rw [synthName, synthName] at h
  exact decRepr_inj (List.append_cancel_left h)

/-! ### Evaluation and characterization of the query-parameter interpreter -/

theorem applyParam_mode_ro (o : SqliteConnectOptions) :
    applyParam o (s2b "mode") (s2b "ro") = .ok { o with read_only := true } := rfl

theorem applyParam_mode_rw (o : SqliteConnectOptions) :
    applyParam o (s2b "mode") (s2b "rw") = .ok o := rfl

theorem applyParam_mode_rwc (o : SqliteConnectOptions) :
    applyParam o (s2b "mode") (s2b "rwc") = .ok { o with create_if_missing := true } := rfl

theorem applyParam_mode_memory (o : SqliteConnectOptions) :
    applyParam o (s2b "mode") (s2b "memory") =
      .ok { o with in_memory := true, shared_cache := true } := rfl

theorem applyParam_cache_private (o : SqliteConnectOptions) :
    applyParam o (s2b "cache") (s2b "private") = .ok { o with shared_cache := false } := rfl

theorem applyParam_cache_shared (o : SqliteConnectOptions) :
    applyParam o (s2b "cache") (s2b "shared") = .ok { o with shared_cache := true } := rfl

theorem applyParam_immutable_true (o : SqliteConnectOptions) :
    applyParam o (s2b "immutable") (s2b "true") = .ok { o with immutable := true } := rfl

theorem applyParam_vfs (o : SqliteConnectOptions) (v : List Nat) :
    applyParam o (s2b "vfs") v = .ok { o with vfs := some v } := rfl

theorem applyParam_error_iff (o : SqliteConnectOptions) (k v : List Nat) (e : ConfigError) :
    applyParam o k v = .error e ↔ isBadPair (k, v) ∧ e = pairError (k, v) := by
  have d1 : s2b "mode" ≠ s2b "cache" := by decide
  have d2 : s2b "mode" ≠ s2b "immutable" := by decide
  have d3 : s2b "mode" ≠ s2b "vfs" := by decide
  have d4 : s2b "cache" ≠ s2b "immutable" := by decide
  have d5 : s2b "cache" ≠ s2b "vfs" := by decide
  have d6 : s2b "immutable" ≠ s2b "vfs" := by decide
  rw [applyParam, isBadPair, pairError]
  split_ifs with h1 h2 h3 h4 h5 h6 h7 h8 h9 h10 h11 h12 <;>
    simp_all [modeVals, cacheVals, immutableVals, namedKeys] <;>
    first
      | exact eq_comm
      | tauto

theorem applyParam_ok_fields {o o' : SqliteConnectOptions} {k v : List Nat}
    (h : applyParam o k v = .ok o') :
    o'.filename = o.filename ∧
    (o.in_memory = true → o'.in_memory = true) ∧
    (o'.in_memory = true → o.in_memory = true ∨ (k = s2b "mode" ∧ v = s2b "memory")) ∧
    (o.shared_cache = true → ¬(k = s2b "cache" ∧ v = s2b "private") → o'.shared_cache = true) := by
  rw [applyParam] at h
  split_ifs at h with h1 h2 h3 h4 h5 h6 h7 h8 h9 h10 h11 h12 <;>
    first
      | exact Except.noConfusion h
      | (injection h with h
         subst h
         simp_all [SqliteConnectOptions.pragma]
         try tauto)

theorem applyParam_not_bad {o o' : SqliteConnectOptions} {k v : List Nat}
    (h : applyParam o k v = .ok o') : ¬ isBadPair (k, v) := by
  intro hb
  have h2 := (applyParam_error_iff o k v (pairError (k, v))).mpr ⟨hb, rfl⟩
  rw [h] at h2
  exact Except.noConfusion h2

theorem applyParams_error_iff :
    ∀ (ps : List (List Nat × List Nat)) (o : SqliteConnectOptions) (e : ConfigError),
      applyParams o ps = .error e ↔
        ∃ ps1 p ps2, ps = ps1 ++ p :: ps2 ∧ (∀ q ∈ ps1, ¬ isBadPair q) ∧
          isBadPair p ∧ e = pairError p := by
  intro ps
  induction ps with
  | nil =>
    intro o e
    rw [applyParams]
    constructor
    · intro h
      exact Except.noConfusion h
    · rintro ⟨ps1, p, ps2, hd, -, -, -⟩
      exact absurd hd (by simp)
  | cons kv rest ih =>
    obtain ⟨k, v⟩ := kv
    intro o e
    rw [applyParams]
    cases h1 : applyParam o k v with
    | error e0 =>
      obtain ⟨hb, he0⟩ := (applyParam_error_iff o k v e0).mp h1
      constructor
      · intro h
        injection h with h
        exact ⟨[], (k, v), rest, by simp, by simp, hb, by rw [← h, he0]⟩
      · rintro ⟨ps1, p, ps2, hd, hgood, hbad, he⟩
        cases ps1 with
        | nil =>
          simp only [List.nil_append, List.cons.injEq] at hd
          obtain ⟨hp, -⟩ := hd
          rw [he, ← hp, ← he0]
        | cons q ps1b =>
          simp only [List.cons_append, List.cons.injEq] at hd
          obtain ⟨hq, -⟩ := hd
          exact absurd (hq ▸ hb) (hgood q (List.mem_cons_self q ps1b))
    | ok o1 =>
      have hnb : ¬ isBadPair (k, v) := applyParam_not_bad h1
      rw [ih o1 e]
      constructor
      · rintro ⟨ps1, p, ps2, hd, hgood, hbad, he⟩
        refine ⟨(k, v) :: ps1, p, ps2, by rw [hd]; rfl, ?_, hbad, he⟩
        intro q hq
        rcases List.mem_cons.mp hq with rfl | hq2
        · exact hnb
        · exact hgood q hq2
      · rintro ⟨ps1, p, ps2, hd, hgood, hbad, he⟩
        cases ps1 with
        | nil =>
          simp only [List.nil_append, List.cons.injEq] at hd
          obtain ⟨hp, -⟩ := hd
          exact absurd (hp ▸ hbad) hnb
        | cons q ps1b =>
          simp only [List.cons_append, List.cons.injEq] at hd
          obtain ⟨hq, hrest⟩ := hd
          exact ⟨ps1b, p, ps2, hrest,
            fun r hr => hgood r (List.mem_cons_of_mem q hr), hbad, he⟩

theorem applyParams_ok_fields :
    ∀ (ps : List (List Nat × List Nat)) (o o' : SqliteConnectOptions),
      applyParams o ps = .ok o' →
      o'.filename = o.filename ∧
      (o.in_memory = true → o'.in_memory = true) ∧
      (o'.in_memory = true → o.in_memory = true ∨ (s2b "mode", s2b "memory") ∈ ps) ∧
      (o.shared_cache = true → (s2b "cache", s2b "private") ∉ ps → o'.shared_cache = true) := by
  intro ps
  induction ps with
  | nil =>
    intro o o' h
    rw [applyParams] at h
    injection h with h
    subst h
    exact ⟨rfl, fun h => h, fun h => Or.inl h, fun h _ => h⟩
  | cons kv rest ih =>
    obtain ⟨k, v⟩ := kv
    intro o o' h
    rw [applyParams] at h
    cases h1 : applyParam o k v with
    | error e =>
      rw [h1] at h
      exact Except.noConfusion h
    | ok o1 =>
      rw [h1] at h
      obtain ⟨f1, m1, m2, s1⟩ := applyParam_ok_fields h1
      obtain ⟨f2, m3, m4, s2⟩ := ih o1 o' h
      refine ⟨f2.trans f1, fun hm => m3 (m1 hm), ?_, ?_⟩
      · intro hm
        rcases m4 hm with hm1 | hmem
        · rcases m2 hm1 with hm0 | ⟨hk, hv⟩
          · exact Or.inl hm0
          · refine Or.inr ?_
            rw [hk, hv]
            exact List.mem_cons_self _ _
        · exact Or.inr (List.mem_cons_of_mem (k, v) hmem)
      · intro hs hn
        refine s2 (s1 hs ?_) ?_
        · rintro ⟨hk, hv⟩
          exact hn (by rw [hk, hv]; exact List.mem_cons_self _ _)
        · intro hmem
          exact hn (List.mem_cons_of_mem (k, v) hmem)

theorem fromDbAndParams_ok_inv {seq : Nat} {db : List Nat} {params : Option (List Nat)}
    {o : SqliteConnectOptions} {n2 : Nat}
    (h : fromDbAndParams seq db params = .ok (o, n2)) :
    (db = s2b ":memory:" ∧ n2 = seq + 1 ∧
      applyParams { defaultOptions with
                    in_memory := true, shared_cache := true,
                    filename := synthName seq } (paramPairs params) = .ok o) ∨
    (db ≠ s2b ":memory:" ∧ n2 = seq ∧ utf8Valid (percentDecode db) = true ∧
      applyParams { defaultOptions with
                    filename := percentDecode db } (paramPairs params) = .ok o) := by
  rw [fromDbAndParams] at h
  by_cases hdb : db = s2b ":memory:"
  · rw [if_pos hdb] at h
    left
    cases h2 : applyParams
        ({ defaultOptions with
           in_memory := true, shared_cache := true,
           filename := synthName seq }) (paramPairs params) with
    | ok o1 =>
      rw [h2] at h
      injection h with h
      injection h with ho hn
      exact ⟨hdb, hn.symm, by rw [ho]⟩
    | error e =>
      rw [h2] at h
      exact Except.noConfusion h
  · rw [if_neg hdb] at h
    by_cases hu : utf8Valid (percentDecode db) = true
    · rw [if_pos hu] at h
      right
      cases h2 : applyParams ({ defaultOptions with filename := percentDecode db })
          (paramPairs params) with
      | ok o1 =>
        rw [h2] at h
        injection h with h
        injection h with ho hn
        exact ⟨hdb, hn.symm, hu, by rw [ho]⟩
      | error e =>
        rw [h2] at h
        exact Except.noConfusion h
    · rw [if_neg hu] at h
      exact Except.noConfusion h

/-! ### Claim C2 -/

/-- C2.  The claim states that for every key of the pragma allow-list the
appended pragma name is the key with the leading marker removed exactly
once, other occurrences of the marker untouched.  The source instead uses
`replace("pragma_", "")`, which removes every occurrence: the allow-list
key `pragma_pragma_list` therefore yields the pragma name `list` instead
of `pragma_list`.  This theorem evaluates the code at that failing input
and exhibits the divergence.  The claim restates a normative requirement
of the specification (section 4.2 with section 9), so the code is at
fault.  The particular instance named by the claim, `pragma_cache_size`,
is unaffected and is also evaluated here. -/
theorem c2_pragma_marker_removed_twice :
    fromDbAndParams 0 (s2b "a.db") (some (s2b "pragma_pragma_list=1")) =
      .ok ({ defaultOptions with
             filename := s2b "a.db",
             pragmas := [(s2b "list", s2b "1")] }, 0) ∧
    replaceAll (s2b "pragma_") (s2b "pragma_pragma_list") ≠ s2b "pragma_list" ∧
    fromDbAndParams 0 (s2b "a.db") (some (s2b "pragma_cache_size=2000")) =
      .ok ({ defaultOptions with
             filename := s2b "a.db",
             pragmas := [(s2b "cache_size", s2b "2000")] }, 0) := by
  refine ⟨by decide, by decide, by decide⟩

/-! ### Claim C3 -/

/-- C3, counterexample.  The claim states that an accepted descriptor never
yields `in_memory = true` together with a caller-supplied on-disk path in
`path_or_identifier`.  The descriptor `a.db?mode=memory` is accepted and
yields exactly that: `in_memory = true` with the caller-supplied path
`a.db` kept verbatim. -/
theorem c3_memory_mode_keeps_disk_path :
    fromDbAndParams 0 (s2b "a.db") (some (s2b "mode=memory")) =
      .ok ({ defaultOptions with
             filename := s2b "a.db", in_memory := true,
             shared_cache := true }, 0) := by
  decide

/-- C3, amended.  Whenever a successful parse yields `in_memory = true`,
either the path part was the literal sentinel, in which case
`path_or_identifier` is the synthetic minted identifier, or the query
contained a `mode=memory` pair, in which case `path_or_identifier`
remains the caller-supplied percent-decoded path text; the parser never
invents in-memory mode otherwise. -/
theorem c3_in_memory_source (seq : Nat) (db : List Nat) (params : Option (List Nat))
    (o : SqliteConnectOptions) (n2 : Nat)
    (h : fromDbAndParams seq db params = .ok (o, n2)) (hm : o.in_memory = true) :
    (db = s2b ":memory:" ∧ o.filename = synthName seq) ∨
      ((s2b "mode", s2b "memory") ∈ paramPairs params ∧
        o.filename = percentDecode db) := by
  rcases fromDbAndParams_ok_inv h with ⟨hdb, -, hap⟩ | ⟨hdb, -, hu, hap⟩
  · obtain ⟨hf, -, -, -⟩ := applyParams_ok_fields _ _ _ hap
    exact Or.inl ⟨hdb, hf⟩
  · obtain ⟨hf, -, hsrc, -⟩ := applyParams_ok_fields _ _ _ hap
    rcases hsrc hm with hm0 | hmem
    · simp [defaultOptions] at hm0
    · exact Or.inr ⟨hmem, hf⟩

/-- C3, amended, witness at the counterexample input. -/
theorem c3_in_memory_source_witness :
    (s2b "a.db" = s2b ":memory:" ∧
        ({ defaultOptions with
           filename := s2b "a.db", in_memory := true,
           shared_cache := true } : SqliteConnectOptions).filename = synthName 0) ∨
      ((s2b "mode", s2b "memory") ∈ paramPairs (some (s2b "mode=memory")) ∧
        ({ defaultOptions with
           filename := s2b "a.db", in_memory := true,
           shared_cache := true } : SqliteConnectOptions).filename =
          percentDecode (s2b "a.db")) :=
  c3_in_memory_source 0 (s2b "a.db") (some (s2b "mode=memory")) _ 0 (by decide) (by decide)

/-! ### Claim C4 -/

/-- C4, counterexample.  The claim states that a descriptor with a
duplicated key resolves to the effect of the second occurrence only, for
every pair of accepted mode values.  For `mode=rwc&mode=ro` the parse
keeps `create_if_missing = true` from the first occurrence and adds
`read_only = true`, so it differs from the parse of `mode=ro` alone. -/
theorem c4_second_mode_does_not_win :
    fromDbAndParams 0 (s2b "a.db") (some (s2b "mode=rwc&mode=ro")) ≠
      fromDbAndParams 0 (s2b "a.db") (some (s2b "mode=ro")) := by
  decide

/-- C4, amended.  Two occurrences of `mode` compose their field effects in
order — `rw` being a no-op, nothing is reset, so the result is not in
general the effect of the second occurrence alone.  For the overwriting
keys the last-write-wins reading is correct: two occurrences of `cache`,
of `immutable` (over accepted values), or of `vfs` (over any values)
leave exactly the state of the second one. -/
theorem c4_mode_effects_accumulate (o o2 o3 o4 : SqliteConnectOptions)
    (m1 m2 v1 v2 w1 w2 u1 u2 : List Nat)
    (hm1 : m1 ∈ modeVals) (hm2 : m2 ∈ modeVals)
    (hv1 : v1 ∈ cacheVals) (hv2 : v2 ∈ cacheVals)
    (hw1 : w1 ∈ immutableVals) (hw2 : w2 ∈ immutableVals) :
    applyParams o [(s2b "mode", m1), (s2b "mode", m2)] =
      .ok (modeEffect m2 (modeEffect m1 o)) ∧
    applyParams o2 [(s2b "cache", v1), (s2b "cache", v2)] =
      applyParams o2 [(s2b "cache", v2)] ∧
    applyParams o3 [(s2b "immutable", w1), (s2b "immutable", w2)] =
      applyParams o3 [(s2b "immutable", w2)] ∧
    applyParams o4 [(s2b "vfs", u1), (s2b "vfs", u2)] =
      applyParams o4 [(s2b "vfs", u2)] := by
  refine ⟨?_, ?_, ?_, rfl⟩
  · simp only [modeVals, List.mem_cons, List.not_mem_nil, or_false] at hm1 hm2
    rcases hm1 with rfl | rfl | rfl | rfl <;> rcases hm2 with rfl | rfl | rfl | rfl <;> rfl
  · simp only [cacheVals, List.mem_cons, List.not_mem_nil, or_false] at hv1 hv2
    rcases hv1 with rfl | rfl <;> rcases hv2 with rfl | rfl <;> rfl
  · simp only [immutableVals, List.mem_cons, List.not_mem_nil, or_false] at hw1 hw2
    rcases hw1 with rfl | rfl | rfl | rfl <;> rcases hw2 with rfl | rfl | rfl | rfl <;> rfl

/-- C4, amended, witness at the counterexample values. -/
theorem c4_mode_effects_accumulate_witness :
    applyParams defaultOptions [(s2b "mode", s2b "rwc"), (s2b "mode", s2b "ro")] =
      .ok (modeEffect (s2b "ro") (modeEffect (s2b "rwc") defaultOptions)) ∧
    applyParams defaultOptions [(s2b "cache", s2b "private"), (s2b "cache", s2b "shared")] =
      applyParams defaultOptions [(s2b "cache", s2b "shared")] ∧
    applyParams defaultOptions [(s2b "immutable", s2b "true"), (s2b "immutable", s2b "0")] =
      applyParams defaultOptions [(s2b "immutable", s2b "0")] ∧
    applyParams defaultOptions [(s2b "vfs", s2b "unix"), (s2b "vfs", s2b "win32")] =
      applyParams defaultOptions [(s2b "vfs", s2b "win32")] :=
  c4_mode_effects_accumulate defaultOptions defaultOptions defaultOptions defaultOptions
    (s2b "rwc") (s2b "ro") (s2b "private") (s2b "shared")
    (s2b "true") (s2b "0") (s2b "unix") (s2b "win32")
    (by decide) (by decide) (by decide) (by decide) (by decide) (by decide)

/-! ### Claim C5 -/

/-- C5, counterexample.  The claim states that every parse whose path part
is the literal sentinel yields `shared_cache = true`.  With the query
`cache=private` the path part is still exactly the sentinel, yet the
parameter loop overrides the flag to false afterwards. -/
theorem c5_cache_private_overrides_sentinel :
    fromDbAndParams 0 (s2b ":memory:") (some (s2b "cache=private")) =
      .ok ({ defaultOptions with
             filename := synthName 0, in_memory := true,
             shared_cache := false }, 1) := by
  decide

/-! ### Claim C7 -/

/-- C7.  A descriptor with an on-disk path and no query parameters parses
to the default configuration value with only the filename set: not
in-memory, shared cache on, nothing created, read-write, not immutable,
no VFS, no pragma overrides.  The defaults come from `defaultOptions`,
modelled from the spec since `Default` is implemented outside the shown
sources. -/
theorem c7_no_params_defaults (seq : Nat) (db : List Nat)
    (h1 : db ≠ s2b ":memory:") (h2 : utf8Valid (percentDecode db) = true) :
    fromDbAndParams seq db none =
      .ok ({ defaultOptions with filename := percentDecode db }, seq) := by
  rw [fromDbAndParams, if_neg h1, if_pos h2]
  rfl

/-- C7, witness at a concrete on-disk path. -/
theorem c7_no_params_defaults_witness :
    fromDbAndParams 0 (s2b "a.db") none =
      .ok ({ defaultOptions with filename := percentDecode (s2b "a.db") }, 0) :=
  c7_no_params_defaults 0 (s2b "a.db") (by decide) (by decide)

/-! ### Claim C9 -/

/-- C9, counterexample.  The claim states that every descriptor whose path
part is a percent-encoded spelling of the sentinel parses with
`in_memory = false`.  That ignores the query: with `mode=memory` in the
query the result has `in_memory = true` even though the path part is the
encoded sentinel. -/
theorem c9_encoded_sentinel_memory_mode :
    fromDbAndParams 0 (s2b "%3Amemory%3A") (some (s2b "mode=memory")) =
      .ok ({ defaultOptions with
             filename := s2b ":memory:", in_memory := true,
             shared_cache := true }, 0) := by
  decide

/-- C9, amended.  The sentinel comparison happens on the raw path part,
before percent-decoding: a percent-encoded spelling of the sentinel does
not enter the in-memory branch, and, provided the query does not itself
contain a `mode=memory` pair, the successful parse has `in_memory = false`
and carries the decoded text `:memory:` as an ordinary on-disk path. -/
theorem c9_encoded_sentinel_on_disk (seq : Nat) (db : List Nat) (params : Option (List Nat))
    (o : SqliteConnectOptions) (n2 : Nat)
    (h1 : db ≠ s2b ":memory:") (h2 : percentDecode db = s2b ":memory:")
    (h3 : (s2b "mode", s2b "memory") ∉ paramPairs params)
    (h : fromDbAndParams seq db params = .ok (o, n2)) :
    o.in_memory = false ∧ o.filename = s2b ":memory:" := by
  rcases fromDbAndParams_ok_inv h with ⟨hdb, -, -⟩ | ⟨-, -, -, hap⟩
  · exact absurd hdb h1
  · obtain ⟨hf, -, hsrc, -⟩ := applyParams_ok_fields _ _ _ hap
    constructor
    · cases hm : o.in_memory with
      | false => rfl
      | true =>
        rcases hsrc hm with hm0 | hmem
        · simp [defaultOptions] at hm0
        · exact absurd hmem h3
    · rw [hf, h2]

/-- C9, amended, witness at the encoded sentinel with no query. -/
theorem c9_encoded_sentinel_on_disk_witness :
    ({ defaultOptions with
       filename := s2b ":memory:" } : SqliteConnectOptions).in_memory = false ∧
    ({ defaultOptions with
       filename := s2b ":memory:" } : SqliteConnectOptions).filename = s2b ":memory:" :=
  c9_encoded_sentinel_on_disk 0 (s2b "%3Amemory%3A") none _ 0
    (by decide) (by decide) (by decide) (by decide)

/-- C5, amended.  A parse of the bare sentinel (no overriding cache
parameter in the query) yields in-memory mode with shared cache and a
freshly minted identifier from the counter; the counter advances by one,
so a second parse mints a different identifier. -/
theorem c5_bare_sentinel_parse (seq : Nat) (params : Option (List Nat))
    (o o2 : SqliteConnectOptions) (n2 n3 : Nat)
    (hc : (s2b "cache", s2b "private") ∉ paramPairs params)
    (h1 : fromDbAndParams seq (s2b ":memory:") params = .ok (o, n2))
    (h2 : fromDbAndParams n2 (s2b ":memory:") params = .ok (o2, n3)) :
    o.in_memory = true ∧ o.shared_cache = true ∧
    o.filename = synthName seq ∧ o2.filename = synthName n2 ∧
    n2 = seq + 1 ∧ o.filename ≠ o2.filename := by
  rcases fromDbAndParams_ok_inv h1 with ⟨-, hn, hap⟩ | ⟨hdb, -, -, -⟩
  swap
  · exact absurd rfl hdb
  rcases fromDbAndParams_ok_inv h2 with ⟨-, -, hap2⟩ | ⟨hdb2, -, -, -⟩
  swap
  · exact absurd rfl hdb2
  obtain ⟨hf, hm, -, hs⟩ := applyParams_ok_fields _ _ _ hap
  obtain ⟨hf2, -, -, -⟩ := applyParams_ok_fields _ _ _ hap2
  refine ⟨hm rfl, hs rfl hc, hf, hf2, hn, ?_⟩
  rw [hf, hf2]
  intro heq
  have := synthName_inj heq
  omega

/-- C5, amended, witness: two consecutive parses of the bare sentinel. -/
theorem c5_bare_sentinel_parse_witness :
    ({ defaultOptions with
       in_memory := true, shared_cache := true,
       filename := synthName 0 } : SqliteConnectOptions).in_memory = true ∧
    ({ defaultOptions with
       in_memory := true, shared_cache := true,
       filename := synthName 0 } : SqliteConnectOptions).shared_cache = true ∧
    ({ defaultOptions with
       in_memory := true, shared_cache := true,
       filename := synthName 0 } : SqliteConnectOptions).filename = synthName 0 ∧
    ({ defaultOptions with
       in_memory := true, shared_cache := true,
       filename := synthName 1 } : SqliteConnectOptions).filename = synthName 1 ∧
    (1 : Nat) = 0 + 1 ∧
    ({ defaultOptions with
       in_memory := true, shared_cache := true,
       filename := synthName 0 } : SqliteConnectOptions).filename ≠
      ({ defaultOptions with
         in_memory := true, shared_cache := true,
         filename := synthName 1 } : SqliteConnectOptions).filename :=
  c5_bare_sentinel_parse 0 none _ _ 1 2 (by decide) (by decide) (by decide)

/-! ### Claim C6 -/

/-- C6.  The parser returns an error exactly when the path part is not the
sentinel and its percent-decoding is not UTF-8, or the decoded query pairs
contain a failing pair, and it returns the error of the first such
condition: the path error, or the error of the first failing pair, every
earlier pair being good.  Each error constructor carries the offending key
or value; no configuration value accompanies an error. -/
theorem c6_error_characterization (seq : Nat) (db : List Nat)
    (params : Option (List Nat)) (e : ConfigError) :
    fromDbAndParams seq db params = .error e ↔
      (db ≠ s2b ":memory:" ∧ utf8Valid (percentDecode db) = false ∧
        e = .invalidUtf8Path db) ∨
      ((db = s2b ":memory:" ∨ utf8Valid (percentDecode db) = true) ∧
        ∃ ps1 p ps2, paramPairs params = ps1 ++ p :: ps2 ∧
          (∀ q ∈ ps1, ¬ isBadPair q) ∧ isBadPair p ∧ e = pairError p) := by
  rw [fromDbAndParams]
  by_cases hdb : db = s2b ":memory:"
  · rw [if_pos hdb]
    constructor
    · intro h
      cases h2 : applyParams
          ({ defaultOptions with
             in_memory := true, shared_cache := true,
             filename := synthName seq }) (paramPairs params) with
      | ok o1 =>
        rw [h2] at h
        exact Except.noConfusion h
      | error e0 =>
        rw [h2] at h
        injection h with h
        subst h
        exact Or.inr ⟨Or.inl hdb, (applyParams_error_iff _ _ _).mp h2⟩
    · rintro (⟨hne, -, -⟩ | ⟨-, hdecomp⟩)
      · exact absurd hdb hne
      · have h2 := (applyParams_error_iff (paramPairs params)
          ({ defaultOptions with
             in_memory := true, shared_cache := true,
             filename := synthName seq }) e).mpr hdecomp
        rw [h2]
  · rw [if_neg hdb]
    by_cases hu : utf8Valid (percentDecode db) = true
    · rw [if_pos hu]
      constructor
      · intro h
        cases h2 : applyParams
            ({ defaultOptions with
               filename := percentDecode db }) (paramPairs params) with
        | ok o1 =>
          rw [h2] at h
          exact Except.noConfusion h
        | error e0 =>
          rw [h2] at h
          injection h with h
          subst h
          exact Or.inr ⟨Or.inr hu, (applyParams_error_iff _ _ _).mp h2⟩
      · rintro (⟨-, hval, -⟩ | ⟨-, hdecomp⟩)
        · rw [hu] at hval
          exact Bool.noConfusion hval
        · have h2 := (applyParams_error_iff (paramPairs params)
            ({ defaultOptions with
               filename := percentDecode db }) e).mpr hdecomp
          rw [h2]
    · rw [if_neg hu]
      constructor
      · intro h
        injection h with h
        exact Or.inl ⟨hdb, Bool.not_eq_true _ ▸ hu, h.symm⟩
      · rintro (⟨-, -, he⟩ | ⟨hg, -⟩)
        · rw [he]
        · rcases hg with hdb2 | hu2
          · exact absurd hdb2 hdb
          · exact absurd hu2 hu

/-! ### Claim C8 -/

/-- C8.  The serializer always appends exactly one mode pair, whose value
follows the priority in-memory, then create-if-missing, then read-only,
then read-write, and exactly one cache pair reflecting the shared-cache
flag; the emitted pairs and the serialized URL are independent of the
pragma override list, which is never serialized. -/
theorem c8_serializer_pairs (c : SqliteConnectOptions) (ps : List (List Nat × List Nat)) :
    (buildQueryPairs c).countP (fun kv => kv.1 == s2b "mode") = 1 ∧
    (s2b "mode",
      if c.in_memory then s2b "memory"
      else if c.create_if_missing then s2b "rwc"
      else if c.read_only then s2b "ro"
      else s2b "rw") ∈ buildQueryPairs c ∧
    (buildQueryPairs c).countP (fun kv => kv.1 == s2b "cache") = 1 ∧
    (s2b "cache", if c.shared_cache then s2b "shared" else s2b "private") ∈ buildQueryPairs c ∧
    buildQueryPairs { c with pragmas := ps } = buildQueryPairs c ∧
    buildUrl { c with pragmas := ps } = buildUrl c := by
  have e1 : (s2b "cache" == s2b "mode") = false := by decide
  have e2 : (s2b "immutable" == s2b "mode") = false := by decide
  have e3 : (s2b "vfs" == s2b "mode") = false := by decide
  have e4 : (s2b "mode" == s2b "mode") = true := by decide
  have e5 : (s2b "mode" == s2b "cache") = false := by decide
  have e6 : (s2b "immutable" == s2b "cache") = false := by decide
  have e7 : (s2b "vfs" == s2b "cache") = false := by decide
  have e8 : (s2b "cache" == s2b "cache") = true := by decide
  obtain ⟨f, im, sc, cm, ro, imm, vfs, prag⟩ := c
  refine ⟨?_, ?_, ?_, ?_, rfl, rfl⟩ <;>
    cases imm <;> rcases vfs with - | v <;>
      simp [buildQueryPairs, List.countP_cons, e1, e2, e3, e4, e5, e6, e7, e8]

/-! ### Claim C10 -/

theorem isPref_trans {a b c : List Nat} (h1 : isPref a b = true)
    (h2 : isPref b c = true) : isPref a c = true := by
  obtain ⟨r1, rfl⟩ := isPref_iff.mp h1
  obtain ⟨r2, rfl⟩ := isPref_iff.mp h2
  exact isPref_iff.mpr ⟨r1 ++ r2, by rw [List.append_assoc]⟩

theorem isPref_append_cancel {a b c : List Nat}
    (h : isPref (a ++ b) (a ++ c) = true) : isPref b c = true := by
  obtain ⟨r, hr⟩ := isPref_iff.mp h
  rw [List.append_assoc] at hr
  exact isPref_iff.mpr ⟨r, List.append_cancel_left hr⟩

theorem isPref_head {a b : Nat} {p l : List Nat}
    (h : isPref (a :: p) (b :: l) = true) : a = b := by
  obtain ⟨r, hr⟩ := isPref_iff.mp h
  injection hr with h1 h2
  exact h1.symm

theorem trimAll_repCat {p : List Nat} (hp : p ≠ []) :
    ∀ (j : Nat) (rest : List Nat), trimAll p (repCat p j ++ rest) = trimAll p rest := by
  intro j
  induction j with
  | zero => intro rest; rw [repCat, List.nil_append]
  | succ j ih =>
    intro rest
    rw [repCat, List.append_assoc, trimAll_strip hp, ih]

theorem not_pref_scheme2 (s : List Nat) (h7 : isPref (s2b "sqlite:") s = false)
    (h2 : isPref (s2b "//") s = false) :
    ∀ k, isPref (s2b "sqlite://") (repCat (s2b "sqlite:") k ++ s) = false := by
  intro k
  cases k with
  | zero =>
    rw [repCat, List.nil_append]
    cases hp : isPref (s2b "sqlite://") s with
    | false => rfl
    | true =>
      have := isPref_trans (a := s2b "sqlite:") (by decide) hp
      rw [this] at h7
      exact Bool.noConfusion h7
  | succ k =>
    rw [repCat, List.append_assoc]
    cases hp : isPref (s2b "sqlite://") (s2b "sqlite:" ++ (repCat (s2b "sqlite:") k ++ s)) with
    | false => rfl
    | true =>
      exfalso
      have hsplit : s2b "sqlite://" = s2b "sqlite:" ++ s2b "//" := by decide
      rw [hsplit] at hp
      have hp2 := isPref_append_cancel hp
      cases k with
      | zero =>
        rw [repCat, List.nil_append] at hp2
        rw [hp2] at h2
        exact Bool.noConfusion h2
      | succ k2 =>
        rw [repCat, List.append_assoc] at hp2
        have h47 : (47 : Nat) = 115 := isPref_head hp2
        omega

/-- C10.  Scheme stripping removes every consecutive leading repetition of
`sqlite://` and then every consecutive leading repetition of `sqlite:`; a
descriptor consisting of any number of copies of the two scheme spellings
followed by a body that starts with neither `sqlite:` nor `//` parses
exactly like the bare body, so `sqlite:sqlite:a.db` and `sqlite:a.db`
parse alike. -/
theorem c10_scheme_stripping_repeats (seq j k : Nat) (s : List Nat)
    (h7 : isPref (s2b "sqlite:") s = false) (h2 : isPref (s2b "//") s = false) :
    fromStr seq (repCat (s2b "sqlite://") j ++ (repCat (s2b "sqlite:") k ++ s)) =
      fromStr seq s := by
  have h9 : isPref (s2b "sqlite://") s = false := by
    have hx := not_pref_scheme2 s h7 h2 0
    rwa [repCat, List.nil_append] at hx
  rw [fromStr, fromStr, trimAll_repCat (by decide) j,
    trimAll_not_pref (not_pref_scheme2 s h7 h2 k),
    trimAll_repCat (by decide) k, trimAll_not_pref h7,
    trimAll_not_pref h9, trimAll_not_pref h7]

/-- C10, witness: one copy of each scheme spelling before a plain body. -/
theorem c10_scheme_stripping_repeats_witness :
    fromStr 0 (repCat (s2b "sqlite://") 1 ++ (repCat (s2b "sqlite:") 1 ++ s2b "a.db")) =
      fromStr 0 (s2b "a.db") :=
  c10_scheme_stripping_repeats 0 1 1 (s2b "a.db") (by decide) (by decide)

/-! ### Claim C1 -/

/-- C1, counterexample.  The claim asserts the serialize-then-parse
round trip for every value the parser produces from a descriptor using
only mode, cache, immutable and vfs parameters over an on-disk path.  The
descriptor `a.db?mode=rwc&mode=memory` is of that shape and produces a
value with both `create_if_missing` and `in_memory` set; the serializer
emits only the priority mode `memory`, so re-parsing loses
`create_if_missing`. -/
theorem c1_mode_pair_breaks_roundtrip :
    fromDbAndParams 0 (s2b "a.db") (some (s2b "mode=rwc&mode=memory")) =
      .ok ({ defaultOptions with
             filename := s2b "a.db", in_memory := true, shared_cache := true,
             create_if_missing := true }, 0) ∧
    fromStr 0 (buildUrl ({ defaultOptions with
             filename := s2b "a.db", in_memory := true, shared_cache := true,
             create_if_missing := true })) =
      .ok ({ defaultOptions with
             filename := s2b "a.db", in_memory := true,
             shared_cache := true }, 0) := by
  exact ⟨by decide, by decide⟩

theorem goodByte_ranges {b : Nat} (h : goodByte b = true) :
    (48 ≤ b ∧ b ≤ 57) ∨ (65 ≤ b ∧ b ≤ 90) ∨ (97 ≤ b ∧ b ≤ 122) ∨
      b = 46 ∨ b = 45 ∨ b = 95 := by
  rw [goodByte, decide_eq_true_iff] at h
  exact h

theorem pathByte_ranges {b : Nat} (h : pathByte b = true) :
    (48 ≤ b ∧ b ≤ 57) ∨ (65 ≤ b ∧ b ≤ 90) ∨ (97 ≤ b ∧ b ≤ 122) ∨
      b = 46 ∨ b = 45 ∨ b = 95 ∨ b = 47 := by
  rw [pathByte, Bool.or_eq_true, decide_eq_true_iff] at h
  rcases h with hg | h47
  · have h2 := goodByte_ranges hg
    tauto
  · tauto

theorem pathEncByte_good {b : Nat} (h : pathByte b = true) : pathEncByte b = [b] := by
  have h2 := pathByte_ranges h
  rw [pathEncByte, if_neg (by omega)]

theorem pctEncodePath_good : ∀ {l : List Nat}, (∀ b ∈ l, pathByte b = true) →
    pctEncodePath l = l := by
  intro l
  induction l with
  | nil => intro h; rfl
  | cons b bs ih =>
    intro h
    rw [pctEncodePath, concatMap, pathEncByte_good (h b (List.mem_cons_self b bs))]
    have h2 := ih fun x hx => h x (List.mem_cons_of_mem b hx)
    rw [pctEncodePath] at h2
    rw [h2]
    rfl

theorem formEncByte_good {b : Nat} (h : goodByte b = true) : formEncByte b = [b] := by
  have h2 := goodByte_ranges h
  rw [formEncByte, if_pos (by omega)]

theorem formEncode_good : ∀ {l : List Nat}, (∀ b ∈ l, goodByte b = true) →
    formEncode l = l := by
  intro l
  induction l with
  | nil => intro h; rfl
  | cons b bs ih =>
    intro h
    rw [formEncode, concatMap, formEncByte_good (h b (List.mem_cons_self b bs))]
    have h2 := ih fun x hx => h x (List.mem_cons_of_mem b hx)
    rw [formEncode] at h2
    rw [h2]
    rfl

theorem decodeComp_good {l : List Nat} (h : ∀ b ∈ l, goodByte b = true) :
    decodeComp l = l :=
  decodeComp_plain fun b hb => by
    have h2 := goodByte_ranges (h b hb)
    refine ⟨by omega, by omega, by omega⟩

theorem isPref_append_cases {p x y : List Nat} (h : isPref p (x ++ y) = true) :
    isPref p x = true ∨ isPref x p = true := by
  obtain ⟨r, hr⟩ := isPref_iff.mp h
  rcases List.append_eq_append_iff.mp hr with ⟨a, ha1, -⟩ | ⟨c, hc1, -⟩
  · exact Or.inr (isPref_iff.mpr ⟨a, ha1⟩)
  · exact Or.inl (isPref_iff.mpr ⟨c, hc1⟩)

/-- A scheme spelling (it contains a colon and no question mark) is not a
prefix of a body made of good path bytes, a question mark and a query. -/
theorem no_pref_of_body {p f q : List Nat} (h58 : (58 : Nat) ∈ p)
    (h63 : (63 : Nat) ∉ p) (hf : ∀ b ∈ f, pathByte b = true) :
    isPref p (f ++ 63 :: q) = false := by
  cases hp : isPref p (f ++ 63 :: q) with
  | false => rfl
  | true =>
    exfalso
    rcases isPref_append_cases hp with h1 | h1
    · obtain ⟨r, hr⟩ := isPref_iff.mp h1
      have h58f : (58 : Nat) ∈ f := by
        rw [hr]
        exact List.mem_append_left r h58
      exact absurd (hf 58 h58f) (by decide)
    · obtain ⟨r, hr⟩ := isPref_iff.mp h1
      cases r with
      | nil =>
        rw [List.append_nil] at hr
        have h58f : (58 : Nat) ∈ f := by
          rw [← hr]
          exact h58
        exact absurd (hf 58 h58f) (by decide)
      | cons r0 rtl =>
        rw [hr] at hp
        have h630 : r0 = 63 := isPref_head (isPref_append_cancel hp)
        apply h63
        rw [hr, h630]
        exact List.mem_append_right f (List.mem_cons_self 63 rtl)

/-- Dissection of a generated URL: stripping the scheme from
`sqlite://<good path>?<query>` leaves the body, and the body splits at the
question mark into the path and the query. -/
theorem fromStr_body (seq : Nat) (f q : List Nat) (hf : ∀ b ∈ f, pathByte b = true) :
    fromStr seq (s2b "sqlite://" ++ (f ++ 63 :: q)) = fromDbAndParams seq f (some q) := by
  have h63f : (63 : Nat) ∉ f := fun hc => absurd (hf 63 hc) (by decide)
  rw [fromStr, trimAll_strip (by decide),
    trimAll_not_pref (no_pref_of_body (by decide) (by decide) hf),
    trimAll_not_pref (no_pref_of_body (by decide) (by decide) hf),
    splitFirst_append q h63f]

theorem formPairs_build : ∀ (segs : List (List Nat)),
    (∀ s ∈ segs, s ≠ [] ∧ (38 : Nat) ∉ s) →
    formPairs (joinAmp segs) = segs.map pairOfSeg := by
  intro segs
  induction segs with
  | nil => intro h; rfl
  | cons x xs ih =>
    intro h
    obtain ⟨hx1, hx2⟩ := h x (List.mem_cons_self x xs)
    have hxe : x.isEmpty = false := by
      cases x with
      | nil => exact absurd rfl hx1
      | cons a as => rfl
    cases xs with
    | nil =>
      rw [joinAmp, formPairs, splitByte_not_mem hx2]
      simp [List.filter, hxe]
    | cons y ys =>
      have hjoin : joinAmp (x :: y :: ys) = x ++ 38 :: joinAmp (y :: ys) := rfl
      rw [hjoin, formPairs, splitByte_append (joinAmp (y :: ys)) hx2]
      have h2 := ih fun s hs => h s (List.mem_cons_of_mem x hs)
      rw [formPairs] at h2
      simp only [List.filter, hxe, Bool.not_false, List.map_cons]
      rw [h2]
      rfl

theorem pairOfSeg_kv {k : List Nat} (v : List Nat) (hk : (61 : Nat) ∉ k) :
    pairOfSeg (k ++ 61 :: v) = (decodeComp k, decodeComp v) := by
  rw [pairOfSeg, splitFirst_append v hk]
  rfl

/-- C1, amended.  For a configuration value whose mode flags are canonical
(at most one of in-memory, create-if-missing, read-only set — equivalently
values produced with at most one effective mode parameter; the
counterexample shows duplicated mode parameters break the round trip),
whose path consists of bytes needing no percent-encoding that are not URL
delimiters — letters, digits, dot, hyphen, underscore and slash, covering
ordinary relative and absolute on-disk paths — with no `.` or `..` path
segment (the URL parser inside `build_url` collapses dot segments, so the
original claim cannot hold there either), and whose optional VFS name
consists of ordinary identifier bytes, parsing the serialized canonical
descriptor succeeds and returns a value equal to the original on
path_or_identifier, in_memory, shared_cache, create_if_missing, read_only,
immutable and vfs. -/
theorem c1_roundtrip_canonical (c : SqliteConnectOptions) (seq : Nat)
    (hf : ∀ b ∈ c.filename, pathByte b = true)
    (hseg : ∀ s ∈ splitByte 47 c.filename, s ≠ s2b "." ∧ s ≠ s2b "..")
    (hv : ∀ v, c.vfs = some v → ∀ b ∈ v, goodByte b = true)
    (hcanon : (c.in_memory = true → c.create_if_missing = false ∧ c.read_only = false) ∧
      (c.create_if_missing = true → c.read_only = false)) :
    ∃ c2 : SqliteConnectOptions, fromStr seq (buildUrl c) = .ok (c2, seq) ∧
      c2.filename = c.filename ∧ c2.in_memory = c.in_memory ∧
      c2.shared_cache = c.shared_cache ∧ c2.create_if_missing = c.create_if_missing ∧
      c2.read_only = c.read_only ∧ c2.immutable = c.immutable ∧ c2.vfs = c.vfs := by
  obtain ⟨f, im, sc, cm, ro, imm, vfs, prag⟩ := c
  have hnm : f ≠ s2b ":memory:" := by
    intro hc
    have h58 : (58 : Nat) ∈ f := by
      rw [hc]
      decide
    exact absurd (hf 58 h58) (by decide)
  have h37 : (37 : Nat) ∉ f := fun hc => absurd (hf 37 hc) (by decide)
  have hval : utf8Valid f = true := utf8Valid_ascii fun b hb => by
    have h2 := pathByte_ranges (hf b hb)
    omega
  cases im with
  | true =>
    obtain ⟨hcm, hro⟩ := hcanon.1 rfl
    cases cm with
    | true => exact Bool.noConfusion hcm
    | false =>
      cases ro with
      | true => exact Bool.noConfusion hro
      | false =>
        cases sc with
        | true =>
          cases imm with
          | true =>
            rcases vfs with - | v
            · -- no vfs
              refine ⟨⟨f, true, true, false, false, true, none, []⟩, ?_, rfl, rfl, rfl, rfl, rfl, rfl, rfl⟩
              rw [show buildUrl ⟨f, true, true, false, false, true, none, prag⟩ =
                    s2b "sqlite://" ++ (pctEncodePath f ++ 63 :: s2b "mode=memory&cache=shared&immutable=true") from rfl,
                  pctEncodePath_good hf, fromStr_body seq f _ hf,
                  fromDbAndParams, if_neg hnm, percentDecode_no_pct h37, if_pos hval]
              rfl
            · -- vfs present
              have hgv : ∀ b ∈ v, goodByte b = true := hv v rfl
              refine ⟨⟨f, true, true, false, false, true, some v, []⟩, ?_, rfl, rfl, rfl, rfl, rfl, rfl, rfl⟩
              rw [show buildUrl ⟨f, true, true, false, false, true, some v, prag⟩ =
                    s2b "sqlite://" ++ (pctEncodePath f ++ 63 ::
                      joinAmp [s2b "mode=memory", s2b "cache=shared", s2b "immutable=true", s2b "vfs" ++ 61 :: formEncode v]) from rfl,
                  pctEncodePath_good hf, formEncode_good hgv, fromStr_body seq f _ hf,
                  fromDbAndParams, if_neg hnm, percentDecode_no_pct h37, if_pos hval]
              simp only [paramPairs]
              rw [formPairs_build _ (by
                intro s hs
                simp only [List.mem_cons, List.not_mem_nil, or_false] at hs
                rcases hs with rfl | rfl | rfl | rfl
                · exact ⟨by decide, by decide⟩
                · exact ⟨by decide, by decide⟩
                · exact ⟨by decide, by decide⟩
                · refine ⟨by simp, ?_⟩
                  intro hc
                  rcases List.mem_append.mp hc with hc1 | hc2
                  · exact absurd hc1 (by decide)
                  · rcases List.mem_cons.mp hc2 with hc3 | hc4
                    · exact absurd hc3 (by decide)
                    · exact absurd (hgv 38 hc4) (by decide))]
              simp only [List.map_cons, List.map_nil]
              rw [
                  show pairOfSeg (s2b "mode=memory") = (s2b "mode", s2b "memory") from by decide,
                  show pairOfSeg (s2b "cache=shared") = (s2b "cache", s2b "shared") from by decide,
                  show pairOfSeg (s2b "immutable=true") = (s2b "immutable", s2b "true") from by decide,
                  pairOfSeg_kv v (by decide), decodeComp_good hgv,
                  show decodeComp (s2b "vfs") = s2b "vfs" from by decide]
              rfl
          | false =>
            rcases vfs with - | v
            · -- no vfs
              refine ⟨⟨f, true, true, false, false, false, none, []⟩, ?_, rfl, rfl, rfl, rfl, rfl, rfl, rfl⟩
              rw [show buildUrl ⟨f, true, true, false, false, false, none, prag⟩ =
                    s2b "sqlite://" ++ (pctEncodePath f ++ 63 :: s2b "mode=memory&cache=shared") from rfl,
                  pctEncodePath_good hf, fromStr_body seq f _ hf,
                  fromDbAndParams, if_neg hnm, percentDecode_no_pct h37, if_pos hval]
              rfl
            · -- vfs present
              have hgv : ∀ b ∈ v, goodByte b = true := hv v rfl
              refine ⟨⟨f, true, true, false, false, false, some v, []⟩, ?_, rfl, rfl, rfl, rfl, rfl, rfl, rfl⟩
              rw [show buildUrl ⟨f, true, true, false, false, false, some v, prag⟩ =
                    s2b "sqlite://" ++ (pctEncodePath f ++ 63 ::
                      joinAmp [s2b "mode=memory", s2b "cache=shared", s2b "vfs" ++ 61 :: formEncode v]) from rfl,
                  pctEncodePath_good hf, formEncode_good hgv, fromStr_body seq f _ hf,
                  fromDbAndParams, if_neg hnm, percentDecode_no_pct h37, if_pos hval]
              simp only [paramPairs]
              rw [formPairs_build _ (by
                intro s hs
                simp only [List.mem_cons, List.not_mem_nil, or_false] at hs
                rcases hs with rfl | rfl | rfl
                · exact ⟨by decide, by decide⟩
                · exact ⟨by decide, by decide⟩
                · refine ⟨by simp, ?_⟩
                  intro hc
                  rcases List.mem_append.mp hc with hc1 | hc2
                  · exact absurd hc1 (by decide)
                  · rcases List.mem_cons.mp hc2 with hc3 | hc4
                    · exact absurd hc3 (by decide)
                    · exact absurd (hgv 38 hc4) (by decide))]
              simp only [List.map_cons, List.map_nil]
              rw [
                  show pairOfSeg (s2b "mode=memory") = (s2b "mode", s2b "memory") from by decide,
                  show pairOfSeg (s2b "cache=shared") = (s2b "cache", s2b "shared") from by decide,
                  pairOfSeg_kv v (by decide), decodeComp_good hgv,
                  show decodeComp (s2b "vfs") = s2b "vfs" from by decide]
              rfl
        | false =>
          cases imm with
          | true =>
            rcases vfs with - | v
            · -- no vfs
              refine ⟨⟨f, true, false, false, false, true, none, []⟩, ?_, rfl, rfl, rfl, rfl, rfl, rfl, rfl⟩
              rw [show buildUrl ⟨f, true, false, false, false, true, none, prag⟩ =
                    s2b "sqlite://" ++ (pctEncodePath f ++ 63 :: s2b "mode=memory&cache=private&immutable=true") from rfl,
                  pctEncodePath_good hf, fromStr_body seq f _ hf,
                  fromDbAndParams, if_neg hnm, percentDecode_no_pct h37, if_pos hval]
              rfl
            · -- vfs present
              have hgv : ∀ b ∈ v, goodByte b = true := hv v rfl
              refine ⟨⟨f, true, false, false, false, true, some v, []⟩, ?_, rfl, rfl, rfl, rfl, rfl, rfl, rfl⟩
              rw [show buildUrl ⟨f, true, false, false, false, true, some v, prag⟩ =
                    s2b "sqlite://" ++ (pctEncodePath f ++ 63 ::
                      joinAmp [s2b "mode=memory", s2b "cache=private", s2b "immutable=true", s2b "vfs" ++ 61 :: formEncode v]) from rfl,
                  pctEncodePath_good hf, formEncode_good hgv, fromStr_body seq f _ hf,
                  fromDbAndParams, if_neg hnm, percentDecode_no_pct h37, if_pos hval]
              simp only [paramPairs]
              rw [formPairs_build _ (by
                intro s hs
                simp only [List.mem_cons, List.not_mem_nil, or_false] at hs
                rcases hs with rfl | rfl | rfl | rfl
                · exact ⟨by decide, by decide⟩
                · exact ⟨by decide, by decide⟩
                · exact ⟨by decide, by decide⟩
                · refine ⟨by simp, ?_⟩
                  intro hc
                  rcases List.mem_append.mp hc with hc1 | hc2
                  · exact absurd hc1 (by decide)
                  · rcases List.mem_cons.mp hc2 with hc3 | hc4
                    · exact absurd hc3 (by decide)
                    · exact absurd (hgv 38 hc4) (by decide))]
              simp only [List.map_cons, List.map_nil]
              rw [
                  show pairOfSeg (s2b "mode=memory") = (s2b "mode", s2b "memory") from by decide,
                  show pairOfSeg (s2b "cache=private") = (s2b "cache", s2b "private") from by decide,
                  show pairOfSeg (s2b "immutable=true") = (s2b "immutable", s2b "true") from by decide,
                  pairOfSeg_kv v (by decide), decodeComp_good hgv,
                  show decodeComp (s2b "vfs") = s2b "vfs" from by decide]
              rfl
          | false =>
            rcases vfs with - | v
            · -- no vfs
              refine ⟨⟨f, true, false, false, false, false, none, []⟩, ?_, rfl, rfl, rfl, rfl, rfl, rfl, rfl⟩
              rw [show buildUrl ⟨f, true, false, false, false, false, none, prag⟩ =
                    s2b "sqlite://" ++ (pctEncodePath f ++ 63 :: s2b "mode=memory&cache=private") from rfl,
                  pctEncodePath_good hf, fromStr_body seq f _ hf,
                  fromDbAndParams, if_neg hnm, percentDecode_no_pct h37, if_pos hval]
              rfl
            · -- vfs present
              have hgv : ∀ b ∈ v, goodByte b = true := hv v rfl
              refine ⟨⟨f, true, false, false, false, false, some v, []⟩, ?_, rfl, rfl, rfl, rfl, rfl, rfl, rfl⟩
              rw [show buildUrl ⟨f, true, false, false, false, false, some v, prag⟩ =
                    s2b "sqlite://" ++ (pctEncodePath f ++ 63 ::
                      joinAmp [s2b "mode=memory", s2b "cache=private", s2b "vfs" ++ 61 :: formEncode v]) from rfl,
                  pctEncodePath_good hf, formEncode_good hgv, fromStr_body seq f _ hf,
                  fromDbAndParams, if_neg hnm, percentDecode_no_pct h37, if_pos hval]
              simp only [paramPairs]
              rw [formPairs_build _ (by
                intro s hs
                simp only [List.mem_cons, List.not_mem_nil, or_false] at hs
                rcases hs with rfl | rfl | rfl
                · exact ⟨by decide, by decide⟩
                · exact ⟨by decide, by decide⟩
                · refine ⟨by simp, ?_⟩
                  intro hc
                  rcases List.mem_append.mp hc with hc1 | hc2
                  · exact absurd hc1 (by decide)
                  · rcases List.mem_cons.mp hc2 with hc3 | hc4
                    · exact absurd hc3 (by decide)
                    · exact absurd (hgv 38 hc4) (by decide))]
              simp only [List.map_cons, List.map_nil]
              rw [
                  show pairOfSeg (s2b "mode=memory") = (s2b "mode", s2b "memory") from by decide,
                  show pairOfSeg (s2b "cache=private") = (s2b "cache", s2b "private") from by decide,
                  pairOfSeg_kv v (by decide), decodeComp_good hgv,
                  show decodeComp (s2b "vfs") = s2b "vfs" from by decide]
              rfl
  | false =>
    cases cm with
    | true =>
      have hro := hcanon.2 rfl
      cases ro with
      | true => exact Bool.noConfusion hro
      | false =>
        cases sc with
        | true =>
          cases imm with
          | true =>
            rcases vfs with - | v
            · -- no vfs
              refine ⟨⟨f, false, true, true, false, true, none, []⟩, ?_, rfl, rfl, rfl, rfl, rfl, rfl, rfl⟩
              rw [show buildUrl ⟨f, false, true, true, false, true, none, prag⟩ =
                    s2b "sqlite://" ++ (pctEncodePath f ++ 63 :: s2b "mode=rwc&cache=shared&immutable=true") from rfl,
                  pctEncodePath_good hf, fromStr_body seq f _ hf,
                  fromDbAndParams, if_neg hnm, percentDecode_no_pct h37, if_pos hval]
              rfl
            · -- vfs present
              have hgv : ∀ b ∈ v, goodByte b = true := hv v rfl
              refine ⟨⟨f, false, true, true, false, true, some v, []⟩, ?_, rfl, rfl, rfl, rfl, rfl, rfl, rfl⟩
              rw [show buildUrl ⟨f, false, true, true, false, true, some v, prag⟩ =
                    s2b "sqlite://" ++ (pctEncodePath f ++ 63 ::
                      joinAmp [s2b "mode=rwc", s2b "cache=shared", s2b "immutable=true", s2b "vfs" ++ 61 :: formEncode v]) from rfl,
                  pctEncodePath_good hf, formEncode_good hgv, fromStr_body seq f _ hf,
                  fromDbAndParams, if_neg hnm, percentDecode_no_pct h37, if_pos hval]
              simp only [paramPairs]
              rw [formPairs_build _ (by
                intro s hs
                simp only [List.mem_cons, List.not_mem_nil, or_false] at hs
                rcases hs with rfl | rfl | rfl | rfl
                · exact ⟨by decide, by decide⟩
                · exact ⟨by decide, by decide⟩
                · exact ⟨by decide, by decide⟩
                · refine ⟨by simp, ?_⟩
                  intro hc
                  rcases List.mem_append.mp hc with hc1 | hc2
                  · exact absurd hc1 (by decide)
                  · rcases List.mem_cons.mp hc2 with hc3 | hc4
                    · exact absurd hc3 (by decide)
                    · exact absurd (hgv 38 hc4) (by decide))]
              simp only [List.map_cons, List.map_nil]
              rw [
                  show pairOfSeg (s2b "mode=rwc") = (s2b "mode", s2b "rwc") from by decide,
                  show pairOfSeg (s2b "cache=shared") = (s2b "cache", s2b "shared") from by decide,
                  show pairOfSeg (s2b "immutable=true") = (s2b "immutable", s2b "true") from by decide,
                  pairOfSeg_kv v (by decide), decodeComp_good hgv,
                  show decodeComp (s2b "vfs") = s2b "vfs" from by decide]
              rfl
          | false =>
            rcases vfs with - | v
            · -- no vfs
              refine ⟨⟨f, false, true, true, false, false, none, []⟩, ?_, rfl, rfl, rfl, rfl, rfl, rfl, rfl⟩
              rw [show buildUrl ⟨f, false, true, true, false, false, none, prag⟩ =
                    s2b "sqlite://" ++ (pctEncodePath f ++ 63 :: s2b "mode=rwc&cache=shared") from rfl,
                  pctEncodePath_good hf, fromStr_body seq f _ hf,
                  fromDbAndParams, if_neg hnm, percentDecode_no_pct h37, if_pos hval]
              rfl
            · -- vfs present
              have hgv : ∀ b ∈ v, goodByte b = true := hv v rfl
              refine ⟨⟨f, false, true, true, false, false, some v, []⟩, ?_, rfl, rfl, rfl, rfl, rfl, rfl, rfl⟩
              rw [show buildUrl ⟨f, false, true, true, false, false, some v, prag⟩ =
                    s2b "sqlite://" ++ (pctEncodePath f ++ 63 ::
                      joinAmp [s2b "mode=rwc", s2b "cache=shared", s2b "vfs" ++ 61 :: formEncode v]) from rfl,
                  pctEncodePath_good hf, formEncode_good hgv, fromStr_body seq f _ hf,
                  fromDbAndParams, if_neg hnm, percentDecode_no_pct h37, if_pos hval]
              simp only [paramPairs]
              rw [formPairs_build _ (by
                intro s hs
                simp only [List.mem_cons, List.not_mem_nil, or_false] at hs
                rcases hs with rfl | rfl | rfl
                · exact ⟨by decide, by decide⟩
                · exact ⟨by decide, by decide⟩
                · refine ⟨by simp, ?_⟩
                  intro hc
                  rcases List.mem_append.mp hc with hc1 | hc2
                  · exact absurd hc1 (by decide)
                  · rcases List.mem_cons.mp hc2 with hc3 | hc4
                    · exact absurd hc3 (by decide)
                    · exact absurd (hgv 38 hc4) (by decide))]
              simp only [List.map_cons, List.map_nil]
              rw [
                  show pairOfSeg (s2b "mode=rwc") = (s2b "mode", s2b "rwc") from by decide,
                  show pairOfSeg (s2b "cache=shared") = (s2b "cache", s2b "shared") from by decide,
                  pairOfSeg_kv v (by decide), decodeComp_good hgv,
                  show decodeComp (s2b "vfs") = s2b "vfs" from by decide]
              rfl
        | false =>
          cases imm with
          | true =>
            rcases vfs with - | v
            · -- no vfs
              refine ⟨⟨f, false, false, true, false, true, none, []⟩, ?_, rfl, rfl, rfl, rfl, rfl, rfl, rfl⟩
              rw [show buildUrl ⟨f, false, false, true, false, true, none, prag⟩ =
                    s2b "sqlite://" ++ (pctEncodePath f ++ 63 :: s2b "mode=rwc&cache=private&immutable=true") from rfl,
                  pctEncodePath_good hf, fromStr_body seq f _ hf,
                  fromDbAndParams, if_neg hnm, percentDecode_no_pct h37, if_pos hval]
              rfl
            · -- vfs present
              have hgv : ∀ b ∈ v, goodByte b = true := hv v rfl
              refine ⟨⟨f, false, false, true, false, true, some v, []⟩, ?_, rfl, rfl, rfl, rfl, rfl, rfl, rfl⟩
              rw [show buildUrl ⟨f, false, false, true, false, true, some v, prag⟩ =
                    s2b "sqlite://" ++ (pctEncodePath f ++ 63 ::
                      joinAmp [s2b "mode=rwc", s2b "cache=private", s2b "immutable=true", s2b "vfs" ++ 61 :: formEncode v]) from rfl,
                  pctEncodePath_good hf, formEncode_good hgv, fromStr_body seq f _ hf,
                  fromDbAndParams, if_neg hnm, percentDecode_no_pct h37, if_pos hval]
              simp only [paramPairs]
              rw [formPairs_build _ (by
                intro s hs
                simp only [List.mem_cons, List.not_mem_nil, or_false] at hs
                rcases hs with rfl | rfl | rfl | rfl
                · exact ⟨by decide, by decide⟩
                · exact ⟨by decide, by decide⟩
                · exact ⟨by decide, by decide⟩
                · refine ⟨by simp, ?_⟩
                  intro hc
                  rcases List.mem_append.mp hc with hc1 | hc2
                  · exact absurd hc1 (by decide)
                  · rcases List.mem_cons.mp hc2 with hc3 | hc4
                    · exact absurd hc3 (by decide)
                    · exact absurd (hgv 38 hc4) (by decide))]
              simp only [List.map_cons, List.map_nil]
              rw [
                  show pairOfSeg (s2b "mode=rwc") = (s2b "mode", s2b "rwc") from by decide,
                  show pairOfSeg (s2b "cache=private") = (s2b "cache", s2b "private") from by decide,
                  show pairOfSeg (s2b "immutable=true") = (s2b "immutable", s2b "true") from by decide,
                  pairOfSeg_kv v (by decide), decodeComp_good hgv,
                  show decodeComp (s2b "vfs") = s2b "vfs" from by decide]
              rfl
          | false =>
            rcases vfs with - | v
            · -- no vfs
              refine ⟨⟨f, false, false, true, false, false, none, []⟩, ?_, rfl, rfl, rfl, rfl, rfl, rfl, rfl⟩
              rw [show buildUrl ⟨f, false, false, true, false, false, none, prag⟩ =
                    s2b "sqlite://" ++ (pctEncodePath f ++ 63 :: s2b "mode=rwc&cache=private") from rfl,
                  pctEncodePath_good hf, fromStr_body seq f _ hf,
                  fromDbAndParams, if_neg hnm, percentDecode_no_pct h37, if_pos hval]
              rfl
            · -- vfs present
              have hgv : ∀ b ∈ v, goodByte b = true := hv v rfl
              refine ⟨⟨f, false, false, true, false, false, some v, []⟩, ?_, rfl, rfl, rfl, rfl, rfl, rfl, rfl⟩
              rw [show buildUrl ⟨f, false, false, true, false, false, some v, prag⟩ =
                    s2b "sqlite://" ++ (pctEncodePath f ++ 63 ::
                      joinAmp [s2b "mode=rwc", s2b "cache=private", s2b "vfs" ++ 61 :: formEncode v]) from rfl,
                  pctEncodePath_good hf, formEncode_good hgv, fromStr_body seq f _ hf,
                  fromDbAndParams, if_neg hnm, percentDecode_no_pct h37, if_pos hval]
              simp only [paramPairs]
              rw [formPairs_build _ (by
                intro s hs
                simp only [List.mem_cons, List.not_mem_nil, or_false] at hs
                rcases hs with rfl | rfl | rfl
                · exact ⟨by decide, by decide⟩
                · exact ⟨by decide, by decide⟩
                · refine ⟨by simp, ?_⟩
                  intro hc
                  rcases List.mem_append.mp hc with hc1 | hc2
                  · exact absurd hc1 (by decide)
                  · rcases List.mem_cons.mp hc2 with hc3 | hc4
                    · exact absurd hc3 (by decide)
                    · exact absurd (hgv 38 hc4) (by decide))]
              simp only [List.map_cons, List.map_nil]
              rw [
                  show pairOfSeg (s2b "mode=rwc") = (s2b "mode", s2b "rwc") from by decide,
                  show pairOfSeg (s2b "cache=private") = (s2b "cache", s2b "private") from by decide,
                  pairOfSeg_kv v (by decide), decodeComp_good hgv,
                  show decodeComp (s2b "vfs") = s2b "vfs" from by decide]
              rfl
    | false =>
      cases ro with
      | true =>
        cases sc with
        | true =>
          cases imm with
          | true =>
            rcases vfs with - | v
            · -- no vfs
              refine ⟨⟨f, false, true, false, true, true, none, []⟩, ?_, rfl, rfl, rfl, rfl, rfl, rfl, rfl⟩
              rw [show buildUrl ⟨f, false, true, false, true, true, none, prag⟩ =
                    s2b "sqlite://" ++ (pctEncodePath f ++ 63 :: s2b "mode=ro&cache=shared&immutable=true") from rfl,
                  pctEncodePath_good hf, fromStr_body seq f _ hf,
                  fromDbAndParams, if_neg hnm, percentDecode_no_pct h37, if_pos hval]
              rfl
            · -- vfs present
              have hgv : ∀ b ∈ v, goodByte b = true := hv v rfl
              refine ⟨⟨f, false, true, false, true, true, some v, []⟩, ?_, rfl, rfl, rfl, rfl, rfl, rfl, rfl⟩
              rw [show buildUrl ⟨f, false, true, false, true, true, some v, prag⟩ =
                    s2b "sqlite://" ++ (pctEncodePath f ++ 63 ::
                      joinAmp [s2b "mode=ro", s2b "cache=shared", s2b "immutable=true", s2b "vfs" ++ 61 :: formEncode v]) from rfl,
                  pctEncodePath_good hf, formEncode_good hgv, fromStr_body seq f _ hf,
                  fromDbAndParams, if_neg hnm, percentDecode_no_pct h37, if_pos hval]
              simp only [paramPairs]
              rw [formPairs_build _ (by
                intro s hs
                simp only [List.mem_cons, List.not_mem_nil, or_false] at hs
                rcases hs with rfl | rfl | rfl | rfl
                · exact ⟨by decide, by decide⟩
                · exact ⟨by decide, by decide⟩
                · exact ⟨by decide, by decide⟩
                · refine ⟨by simp, ?_⟩
                  intro hc
                  rcases List.mem_append.mp hc with hc1 | hc2
                  · exact absurd hc1 (by decide)
                  · rcases List.mem_cons.mp hc2 with hc3 | hc4
                    · exact absurd hc3 (by decide)
                    · exact absurd (hgv 38 hc4) (by decide))]
              simp only [List.map_cons, List.map_nil]
              rw [
                  show pairOfSeg (s2b "mode=ro") = (s2b "mode", s2b "ro") from by decide,
                  show pairOfSeg (s2b "cache=shared") = (s2b "cache", s2b "shared") from by decide,
                  show pairOfSeg (s2b "immutable=true") = (s2b "immutable", s2b "true") from by decide,
                  pairOfSeg_kv v (by decide), decodeComp_good hgv,
                  show decodeComp (s2b "vfs") = s2b "vfs" from by decide]
              rfl
          | false =>
            rcases vfs with - | v
            · -- no vfs
              refine ⟨⟨f, false, true, false, true, false, none, []⟩, ?_, rfl, rfl, rfl, rfl, rfl, rfl, rfl⟩
              rw [show buildUrl ⟨f, false, true, false, true, false, none, prag⟩ =
                    s2b "sqlite://" ++ (pctEncodePath f ++ 63 :: s2b "mode=ro&cache=shared") from rfl,
                  pctEncodePath_good hf, fromStr_body seq f _ hf,
                  fromDbAndParams, if_neg hnm, percentDecode_no_pct h37, if_pos hval]
              rfl
            · -- vfs present
              have hgv : ∀ b ∈ v, goodByte b = true := hv v rfl
              refine ⟨⟨f, false, true, false, true, false, some v, []⟩, ?_, rfl, rfl, rfl, rfl, rfl, rfl, rfl⟩
              rw [show buildUrl ⟨f, false, true, false, true, false, some v, prag⟩ =
                    s2b "sqlite://" ++ (pctEncodePath f ++ 63 ::
                      joinAmp [s2b "mode=ro", s2b "cache=shared", s2b "vfs" ++ 61 :: formEncode v]) from rfl,
                  pctEncodePath_good hf, formEncode_good hgv, fromStr_body seq f _ hf,
                  fromDbAndParams, if_neg hnm, percentDecode_no_pct h37, if_pos hval]
              simp only [paramPairs]
              rw [formPairs_build _ (by
                intro s hs
                simp only [List.mem_cons, List.not_mem_nil, or_false] at hs
                rcases hs with rfl | rfl | rfl
                · exact ⟨by decide, by decide⟩
                · exact ⟨by decide, by decide⟩
                · refine ⟨by simp, ?_⟩
                  intro hc
                  rcases List.mem_append.mp hc with hc1 | hc2
                  · exact absurd hc1 (by decide)
                  · rcases List.mem_cons.mp hc2 with hc3 | hc4
                    · exact absurd hc3 (by decide)
                    · exact absurd (hgv 38 hc4) (by decide))]
              simp only [List.map_cons, List.map_nil]
              rw [
                  show pairOfSeg (s2b "mode=ro") = (s2b "mode", s2b "ro") from by decide,
                  show pairOfSeg (s2b "cache=shared") = (s2b "cache", s2b "shared") from by decide,
                  pairOfSeg_kv v (by decide), decodeComp_good hgv,
                  show decodeComp (s2b "vfs") = s2b "vfs" from by decide]
              rfl
        | false =>
          cases imm with
          | true =>
            rcases vfs with - | v
            · -- no vfs
              refine ⟨⟨f, false, false, false, true, true, none, []⟩, ?_, rfl, rfl, rfl, rfl, rfl, rfl, rfl⟩
              rw [show buildUrl ⟨f, false, false, false, true, true, none, prag⟩ =
                    s2b "sqlite://" ++ (pctEncodePath f ++ 63 :: s2b "mode=ro&cache=private&immutable=true") from rfl,
                  pctEncodePath_good hf, fromStr_body seq f _ hf,
                  fromDbAndParams, if_neg hnm, percentDecode_no_pct h37, if_pos hval]
              rfl
            · -- vfs present
              have hgv : ∀ b ∈ v, goodByte b = true := hv v rfl
              refine ⟨⟨f, false, false, false, true, true, some v, []⟩, ?_, rfl, rfl, rfl, rfl, rfl, rfl, rfl⟩
              rw [show buildUrl ⟨f, false, false, false, true, true, some v, prag⟩ =
                    s2b "sqlite://" ++ (pctEncodePath f ++ 63 ::
                      joinAmp [s2b "mode=ro", s2b "cache=private", s2b "immutable=true", s2b "vfs" ++ 61 :: formEncode v]) from rfl,
                  pctEncodePath_good hf, formEncode_good hgv, fromStr_body seq f _ hf,
                  fromDbAndParams, if_neg hnm, percentDecode_no_pct h37, if_pos hval]
              simp only [paramPairs]
              rw [formPairs_build _ (by
                intro s hs
                simp only [List.mem_cons, List.not_mem_nil, or_false] at hs
                rcases hs with rfl | rfl | rfl | rfl
                · exact ⟨by decide, by decide⟩
                · exact ⟨by decide, by decide⟩
                · exact ⟨by decide, by decide⟩
                · refine ⟨by simp, ?_⟩
                  intro hc
                  rcases List.mem_append.mp hc with hc1 | hc2
                  · exact absurd hc1 (by decide)
                  · rcases List.mem_cons.mp hc2 with hc3 | hc4
                    · exact absurd hc3 (by decide)
                    · exact absurd (hgv 38 hc4) (by decide))]
              simp only [List.map_cons, List.map_nil]
              rw [
                  show pairOfSeg (s2b "mode=ro") = (s2b "mode", s2b "ro") from by decide,
                  show pairOfSeg (s2b "cache=private") = (s2b "cache", s2b "private") from by decide,
                  show pairOfSeg (s2b "immutable=true") = (s2b "immutable", s2b "true") from by decide,
                  pairOfSeg_kv v (by decide), decodeComp_good hgv,
                  show decodeComp (s2b "vfs") = s2b "vfs" from by decide]
              rfl
          | false =>
            rcases vfs with - | v
            · -- no vfs
              refine ⟨⟨f, false, false, false, true, false, none, []⟩, ?_, rfl, rfl, rfl, rfl, rfl, rfl, rfl⟩
              rw [show buildUrl ⟨f, false, false, false, true, false, none, prag⟩ =
                    s2b "sqlite://" ++ (pctEncodePath f ++ 63 :: s2b "mode=ro&cache=private") from rfl,
                  pctEncodePath_good hf, fromStr_body seq f _ hf,
                  fromDbAndParams, if_neg hnm, percentDecode_no_pct h37, if_pos hval]
              rfl
            · -- vfs present
              have hgv : ∀ b ∈ v, goodByte b = true := hv v rfl
              refine ⟨⟨f, false, false, false, true, false, some v, []⟩, ?_, rfl, rfl, rfl, rfl, rfl, rfl, rfl⟩
              rw [show buildUrl ⟨f, false, false, false, true, false, some v, prag⟩ =
                    s2b "sqlite://" ++ (pctEncodePath f ++ 63 ::
                      joinAmp [s2b "mode=ro", s2b "cache=private", s2b "vfs" ++ 61 :: formEncode v]) from rfl,
                  pctEncodePath_good hf, formEncode_good hgv, fromStr_body seq f _ hf,
                  fromDbAndParams, if_neg hnm, percentDecode_no_pct h37, if_pos hval]
              simp only [paramPairs]
              rw [formPairs_build _ (by
                intro s hs
                simp only [List.mem_cons, List.not_mem_nil, or_false] at hs
                rcases hs with rfl | rfl | rfl
                · exact ⟨by decide, by decide⟩
                · exact ⟨by decide, by decide⟩
                · refine ⟨by simp, ?_⟩
                  intro hc
                  rcases List.mem_append.mp hc with hc1 | hc2
                  · exact absurd hc1 (by decide)
                  · rcases List.mem_cons.mp hc2 with hc3 | hc4
                    · exact absurd hc3 (by decide)
                    · exact absurd (hgv 38 hc4) (by decide))]
              simp only [List.map_cons, List.map_nil]
              rw [
                  show pairOfSeg (s2b "mode=ro") = (s2b "mode", s2b "ro") from by decide,
                  show pairOfSeg (s2b "cache=private") = (s2b "cache", s2b "private") from by decide,
                  pairOfSeg_kv v (by decide), decodeComp_good hgv,
                  show decodeComp (s2b "vfs") = s2b "vfs" from by decide]
              rfl
      | false =>
        cases sc with
        | true =>
          cases imm with
          | true =>
            rcases vfs with - | v
            · -- no vfs
              refine ⟨⟨f, false, true, false, false, true, none, []⟩, ?_, rfl, rfl, rfl, rfl, rfl, rfl, rfl⟩
              rw [show buildUrl ⟨f, false, true, false, false, true, none, prag⟩ =
                    s2b "sqlite://" ++ (pctEncodePath f ++ 63 :: s2b "mode=rw&cache=shared&immutable=true") from rfl,
                  pctEncodePath_good hf, fromStr_body seq f _ hf,
                  fromDbAndParams, if_neg hnm, percentDecode_no_pct h37, if_pos hval]
              rfl
            · -- vfs present
              have hgv : ∀ b ∈ v, goodByte b = true := hv v rfl
              refine ⟨⟨f, false, true, false, false, true, some v, []⟩, ?_, rfl, rfl, rfl, rfl, rfl, rfl, rfl⟩
              rw [show buildUrl ⟨f, false, true, false, false, true, some v, prag⟩ =
                    s2b "sqlite://" ++ (pctEncodePath f ++ 63 ::
                      joinAmp [s2b "mode=rw", s2b "cache=shared", s2b "immutable=true", s2b "vfs" ++ 61 :: formEncode v]) from rfl,
                  pctEncodePath_good hf, formEncode_good hgv, fromStr_body seq f _ hf,
                  fromDbAndParams, if_neg hnm, percentDecode_no_pct h37, if_pos hval]
              simp only [paramPairs]
              rw [formPairs_build _ (by
                intro s hs
                simp only [List.mem_cons, List.not_mem_nil, or_false] at hs
                rcases hs with rfl | rfl | rfl | rfl
                · exact ⟨by decide, by decide⟩
                · exact ⟨by decide, by decide⟩
                · exact ⟨by decide, by decide⟩
                · refine ⟨by simp, ?_⟩
                  intro hc
                  rcases List.mem_append.mp hc with hc1 | hc2
                  · exact absurd hc1 (by decide)
                  · rcases List.mem_cons.mp hc2 with hc3 | hc4
                    · exact absurd hc3 (by decide)
                    · exact absurd (hgv 38 hc4) (by decide))]
              simp only [List.map_cons, List.map_nil]
              rw [
                  show pairOfSeg (s2b "mode=rw") = (s2b "mode", s2b "rw") from by decide,
                  show pairOfSeg (s2b "cache=shared") = (s2b "cache", s2b "shared") from by decide,
                  show pairOfSeg (s2b "immutable=true") = (s2b "immutable", s2b "true") from by decide,
                  pairOfSeg_kv v (by decide), decodeComp_good hgv,
                  show decodeComp (s2b "vfs") = s2b "vfs" from by decide]
              rfl
          | false =>
            rcases vfs with - | v
            · -- no vfs
              refine ⟨⟨f, false, true, false, false, false, none, []⟩, ?_, rfl, rfl, rfl, rfl, rfl, rfl, rfl⟩
              rw [show buildUrl ⟨f, false, true, false, false, false, none, prag⟩ =
                    s2b "sqlite://" ++ (pctEncodePath f ++ 63 :: s2b "mode=rw&cache=shared") from rfl,
                  pctEncodePath_good hf, fromStr_body seq f _ hf,
                  fromDbAndParams, if_neg hnm, percentDecode_no_pct h37, if_pos hval]
              rfl
            · -- vfs present
              have hgv : ∀ b ∈ v, goodByte b = true := hv v rfl
              refine ⟨⟨f, false, true, false, false, false, some v, []⟩, ?_, rfl, rfl, rfl, rfl, rfl, rfl, rfl⟩
              rw [show buildUrl ⟨f, false, true, false, false, false, some v, prag⟩ =
                    s2b "sqlite://" ++ (pctEncodePath f ++ 63 ::
                      joinAmp [s2b "mode=rw", s2b "cache=shared", s2b "vfs" ++ 61 :: formEncode v]) from rfl,
                  pctEncodePath_good hf, formEncode_good hgv, fromStr_body seq f _ hf,
                  fromDbAndParams, if_neg hnm, percentDecode_no_pct h37, if_pos hval]
              simp only [paramPairs]
              rw [formPairs_build _ (by
                intro s hs
                simp only [List.mem_cons, List.not_mem_nil, or_false] at hs
                rcases hs with rfl | rfl | rfl
                · exact ⟨by decide, by decide⟩
                · exact ⟨by decide, by decide⟩
                · refine ⟨by simp, ?_⟩
                  intro hc
                  rcases List.mem_append.mp hc with hc1 | hc2
                  · exact absurd hc1 (by decide)
                  · rcases List.mem_cons.mp hc2 with hc3 | hc4
                    · exact absurd hc3 (by decide)
                    · exact absurd (hgv 38 hc4) (by decide))]
              simp only [List.map_cons, List.map_nil]
              rw [
                  show pairOfSeg (s2b "mode=rw") = (s2b "mode", s2b "rw") from by decide,
                  show pairOfSeg (s2b "cache=shared") = (s2b "cache", s2b "shared") from by decide,
                  pairOfSeg_kv v (by decide), decodeComp_good hgv,
                  show decodeComp (s2b "vfs") = s2b "vfs" from by decide]
              rfl
        | false =>
          cases imm with
          | true =>
            rcases vfs with - | v
            · -- no vfs
              refine ⟨⟨f, false, false, false, false, true, none, []⟩, ?_, rfl, rfl, rfl, rfl, rfl, rfl, rfl⟩
              rw [show buildUrl ⟨f, false, false, false, false, true, none, prag⟩ =
                    s2b "sqlite://" ++ (pctEncodePath f ++ 63 :: s2b "mode=rw&cache=private&immutable=true") from rfl,
                  pctEncodePath_good hf, fromStr_body seq f _ hf,
                  fromDbAndParams, if_neg hnm, percentDecode_no_pct h37, if_pos hval]
              rfl
            · -- vfs present
              have hgv : ∀ b ∈ v, goodByte b = true := hv v rfl
              refine ⟨⟨f, false, false, false, false, true, some v, []⟩, ?_, rfl, rfl, rfl, rfl, rfl, rfl, rfl⟩
              rw [show buildUrl ⟨f, false, false, false, false, true, some v, prag⟩ =
                    s2b "sqlite://" ++ (pctEncodePath f ++ 63 ::
                      joinAmp [s2b "mode=rw", s2b "cache=private", s2b "immutable=true", s2b "vfs" ++ 61 :: formEncode v]) from rfl,
                  pctEncodePath_good hf, formEncode_good hgv, fromStr_body seq f _ hf,
                  fromDbAndParams, if_neg hnm, percentDecode_no_pct h37, if_pos hval]
              simp only [paramPairs]
              rw [formPairs_build _ (by
                intro s hs
                simp only [List.mem_cons, List.not_mem_nil, or_false] at hs
                rcases hs with rfl | rfl | rfl | rfl
                · exact ⟨by decide, by decide⟩
                · exact ⟨by decide, by decide⟩
                · exact ⟨by decide, by decide⟩
                · refine ⟨by simp, ?_⟩
                  intro hc
                  rcases List.mem_append.mp hc with hc1 | hc2
                  · exact absurd hc1 (by decide)
                  · rcases List.mem_cons.mp hc2 with hc3 | hc4
                    · exact absurd hc3 (by decide)
                    · exact absurd (hgv 38 hc4) (by decide))]
              simp only [List.map_cons, List.map_nil]
              rw [
                  show pairOfSeg (s2b "mode=rw") = (s2b "mode", s2b "rw") from by decide,
                  show pairOfSeg (s2b "cache=private") = (s2b "cache", s2b "private") from by decide,
                  show pairOfSeg (s2b "immutable=true") = (s2b "immutable", s2b "true") from by decide,
                  pairOfSeg_kv v (by decide), decodeComp_good hgv,
                  show decodeComp (s2b "vfs") = s2b "vfs" from by decide]
              rfl
          | false =>
            rcases vfs with - | v
            · -- no vfs
              refine ⟨⟨f, false, false, false, false, false, none, []⟩, ?_, rfl, rfl, rfl, rfl, rfl, rfl, rfl⟩
              rw [show buildUrl ⟨f, false, false, false, false, false, none, prag⟩ =
                    s2b "sqlite://" ++ (pctEncodePath f ++ 63 :: s2b "mode=rw&cache=private") from rfl,
                  pctEncodePath_good hf, fromStr_body seq f _ hf,
                  fromDbAndParams, if_neg hnm, percentDecode_no_pct h37, if_pos hval]
              rfl
            · -- vfs present
              have hgv : ∀ b ∈ v, goodByte b = true := hv v rfl
              refine ⟨⟨f, false, false, false, false, false, some v, []⟩, ?_, rfl, rfl, rfl, rfl, rfl, rfl, rfl⟩
              rw [show buildUrl ⟨f, false, false, false, false, false, some v, prag⟩ =
                    s2b "sqlite://" ++ (pctEncodePath f ++ 63 ::
                      joinAmp [s2b "mode=rw", s2b "cache=private", s2b "vfs" ++ 61 :: formEncode v]) from rfl,
                  pctEncodePath_good hf, formEncode_good hgv, fromStr_body seq f _ hf,
                  fromDbAndParams, if_neg hnm, percentDecode_no_pct h37, if_pos hval]
              simp only [paramPairs]
              rw [formPairs_build _ (by
                intro s hs
                simp only [List.mem_cons, List.not_mem_nil, or_false] at hs
                rcases hs with rfl | rfl | rfl
                · exact ⟨by decide, by decide⟩
                · exact ⟨by decide, by decide⟩
                · refine ⟨by simp, ?_⟩
                  intro hc
                  rcases List.mem_append.mp hc with hc1 | hc2
                  · exact absurd hc1 (by decide)
                  · rcases List.mem_cons.mp hc2 with hc3 | hc4
                    · exact absurd hc3 (by decide)
                    · exact absurd (hgv 38 hc4) (by decide))]
              simp only [List.map_cons, List.map_nil]
              rw [
                  show pairOfSeg (s2b "mode=rw") = (s2b "mode", s2b "rw") from by decide,
                  show pairOfSeg (s2b "cache=private") = (s2b "cache", s2b "private") from by decide,
                  pairOfSeg_kv v (by decide), decodeComp_good hgv,
                  show decodeComp (s2b "vfs") = s2b "vfs" from by decide]
              rfl

/-- C1, amended, witness at a concrete read-only immutable value with an
absolute slash-bearing path and a VFS name. -/
theorem c1_roundtrip_canonical_witness :
    ∃ c2 : SqliteConnectOptions,
      fromStr 5 (buildUrl ⟨s2b "/tmp/test.db", false, true, false, true, true,
        some (s2b "unix"), []⟩) = .ok (c2, 5) ∧
      c2.filename = (⟨s2b "/tmp/test.db", false, true, false, true, true,
        some (s2b "unix"), []⟩ : SqliteConnectOptions).filename ∧
      c2.in_memory = false ∧ c2.shared_cache = true ∧
      c2.create_if_missing = false ∧ c2.read_only = true ∧
      c2.immutable = true ∧ c2.vfs = some (s2b "unix") :=
  c1_roundtrip_canonical
    ⟨s2b "/tmp/test.db", false, true, false, true, true, some (s2b "unix"), []⟩ 5
    (by decide)
    (by decide)
    (fun v hveq => by
      injection hveq with h
      subst h
      decide)
    (by decide)

end SqlxSqlite
